import Mathlib

/-!
Verification development for the able-seaman release manager.

The definitions below are a shallow embedding of the Rust sources:
`src/release/plan.rs`, `src/release/rollback.rs`, `src/release/verify.rs`,
`src/manager.rs`, `src/k8s/lock.rs`, `src/objects.rs`, `src/identifier.rs`,
`src/k8s/labels.rs`, `src/k8s/annotations.rs`, `src/k8s/api_resource.rs`.
External library types (serde_json values, kube dynamic objects, clients)
are modelled structurally; the transport is modelled as an explicit
environment/oracle since it is an external collaborator.
-/

deriving instance DecidableEq for Except

namespace AbleSeaman

mutual

/-- Model of `serde_json::Value`. Arrays and objects are modelled with the
mutually inductive list types below; object fields keep insertion order and
serde maps never hold duplicate keys (captured by `Json.wf`). Numbers are
modelled by an integer carrier; only equality of numbers is ever used. -/
inductive Json where
  | null : Json
  | bool (b : Bool) : Json
  | num (n : Int) : Json
  | str (s : String) : Json
  | arr (items : JsonArr) : Json
  | obj (fields : JsonObj) : Json
deriving DecidableEq

/-- Model of a `serde_json` array: a list of values. -/
inductive JsonArr where
  | nil : JsonArr
  | cons (hd : Json) (tl : JsonArr) : JsonArr
deriving DecidableEq

/-- Model of a `serde_json` object: an association list of fields. -/
inductive JsonObj where
  | nil : JsonObj
  | cons (key : String) (val : Json) (tl : JsonObj) : JsonObj
deriving DecidableEq

end

/-- Length of a model JSON array (`Vec::len`). -/
def JsonArr.length : JsonArr → Nat
  | .nil => 0
  | .cons _ tl => tl.length + 1

/-- Field lookup in a model JSON object (`serde_json::Map::get`). -/
def JsonObj.get : JsonObj → String → Option Json
  | .nil, _ => none
  | .cons k v tl, key => if k = key then some v else tl.get key

/-- Keys of a model JSON object. -/
def JsonObj.keys : JsonObj → List String
  | .nil => []
  | .cons k _ tl => k :: tl.keys

/-- The fields of a model JSON object as a list of pairs. -/
def JsonObj.toList : JsonObj → List (String × Json)
  | .nil => []
  | .cons k v tl => (k, v) :: tl.toList

mutual

/-- `check_value` from `src/release/verify.rs`: structural subset check of a
`spec` value against an `instance` value, threading the path of the current
position and returning the path of the first divergence on mismatch. -/
def check_value : Json → Json → List String → Except (List String) Unit
  | .null, .null, _ => .ok ()
  | .bool a, .bool b, path => if a = b then .ok () else .error path
  | .num a, .num b, path => if a = b then .ok () else .error path
  | .str a, .str b, path => if a = b then .ok () else .error path
  | .arr s, .arr i, path =>
      if s.length = i.length then checkArrayItems s i path 0 else .error path
  | .obj s, .obj i, path => checkObjectFields s i path
  | _, _, path => .error path

/-- The indexed loop body of `check_value` on arrays (`for index in 0..len`). -/
def checkArrayItems : JsonArr → JsonArr → List String → Nat →
    Except (List String) Unit
  | .nil, _, _, _ => .ok ()
  | .cons _ _, .nil, _, _ => .ok ()
  | .cons s srest, .cons x xrest, path, index =>
      match check_value s x (path ++ [toString index]) with
      | .ok _ => checkArrayItems srest xrest path (index + 1)
      | .error e => .error e

/-- The loop body of `check_value` on objects: every spec field must resolve
in the instance and recursively match. -/
def checkObjectFields : JsonObj → JsonObj → List String →
    Except (List String) Unit
  | .nil, _, _ => .ok ()
  | .cons key specValue rest, inst, path =>
      match inst.get key with
      | none => .error (path ++ [key])
      | some instValue =>
        match check_value specValue instValue (path ++ [key]) with
        | .ok _ => checkObjectFields rest inst path
        | .error e => .error e

end

mutual

/-- Well-formedness of a model JSON value as produced by serde: every object
along the value has pairwise distinct keys. -/
def Json.wf : Json → Bool
  | .null | .bool _ | .num _ | .str _ => true
  | .arr items => items.wfArr
  | .obj fields => fields.keys.Nodup && fields.wfObj

/-- Well-formedness of every element of a model JSON array. -/
def JsonArr.wfArr : JsonArr → Bool
  | .nil => true
  | .cons hd tl => hd.wf && tl.wfArr

/-- Well-formedness of every field value of a model JSON object. -/
def JsonObj.wfObj : JsonObj → Bool
  | .nil => true
  | .cons _ v tl => v.wf && tl.wfObj

end

mutual

/-- Stated from the specification's words for claim C5 (refinement side):
"equal scalars (null/bool/number/string) match, arrays match exactly when
their lengths are equal and corresponding elements recursively match, and
for objects every key present in spec exists in instance with a recursively
matching value while extra keys in instance are ignored". -/
def specMatchesClaim : Json → Json → Bool
  | .null, .null => true
  | .bool a, .bool b => a = b
  | .num a, .num b => a = b
  | .str a, .str b => a = b
  | .arr s, .arr i => s.length = i.length && specMatchesArr s i
  | .obj s, .obj i => specMatchesObj s i
  | _, _ => false

/-- Claim-side pointwise matching of corresponding array elements. -/
def specMatchesArr : JsonArr → JsonArr → Bool
  | .nil, _ => true
  | .cons _ _, .nil => true
  | .cons s srest, .cons x xrest => specMatchesClaim s x && specMatchesArr srest xrest

/-- Claim-side matching of every spec field against the instance object. -/
def specMatchesObj : JsonObj → JsonObj → Bool
  | .nil, _ => true
  | .cons key v rest, inst =>
      (match inst.get key with
       | none => false
       | some iv => specMatchesClaim v iv) && specMatchesObj rest inst

end

mutual

/-- Stated from the claim's words for C5 (refinement side): the relative
path of the first divergence between a spec value and an instance value,
or `none` when they match. A scalar or kind mismatch diverges at the
current node (empty relative path); an array diverges at the lowest index
whose elements diverge (after the length gate); an object diverges at the
first spec field, in field order, that is missing from the instance or
whose value recursively diverges. -/
def firstDivergence : Json → Json → Option (List String)
  | .null, .null => none
  | .bool a, .bool b => if a = b then none else some []
  | .num a, .num b => if a = b then none else some []
  | .str a, .str b => if a = b then none else some []
  | .arr s, .arr i =>
      if s.length = i.length then firstDivergenceArr s i 0 else some []
  | .obj s, .obj i => firstDivergenceObj s i
  | _, _ => some []

/-- Claim-side first divergence over array elements, indices ascending
from `n`. -/
def firstDivergenceArr : JsonArr → JsonArr → Nat → Option (List String)
  | .nil, _, _ => none
  | .cons _ _, .nil, _ => none
  | .cons s srest, .cons x xrest, n =>
      match firstDivergence s x with
      | some d => some (toString n :: d)
      | none => firstDivergenceArr srest xrest (n + 1)

/-- Claim-side first divergence over the spec's object fields, in field
order. -/
def firstDivergenceObj : JsonObj → JsonObj → Option (List String)
  | .nil, _ => none
  | .cons k v rest, inst =>
      match inst.get k with
      | none => some [k]
      | some iv =>
        match firstDivergence v iv with
        | some d => some (k :: d)
        | none => firstDivergenceObj rest inst

end

/-- `kube::core::GroupVersionKind` (the fields used by `Identifier`). -/
structure GroupVersionKind where
  group : String
  version : String
  kind : String
deriving DecidableEq

/-- `Identifier` from `src/identifier.rs`: the stable key of an object. -/
structure Identifier where
  gvk : GroupVersionKind
  name : String
deriving DecidableEq

/-- `kube::core::ApiResource` (structural model). -/
structure ApiResource where
  group : String
  version : String
  apiVersion : String
  kind : String
  plural : String
deriving DecidableEq

/-- `kube::core::TypeMeta`: the `apiVersion`/`kind` pair of an object body. -/
structure TypeMeta where
  apiVersion : String
  kind : String
deriving DecidableEq

/-- String-keyed association map with map semantics (model of the
`BTreeMap<String, String>` used for labels and annotations): `insert`
replaces the value of an existing key and otherwise appends. -/
def kvInsert : List (String × String) → String → String → List (String × String)
  | [], k, v => [(k, v)]
  | (k', v') :: rest, k, v =>
      if k' = k then (k, v) :: rest else (k', v') :: kvInsert rest k v

/-- Lookup in a string-keyed association map. -/
def kvGet : List (String × String) → String → Option String
  | [], _ => none
  | (k', v') :: rest, k => if k' = k then some v' else kvGet rest k

/-- `kube::core::ObjectMeta` (the fields the core reads and writes). -/
structure ObjectMeta where
  name : Option String
  labels : List (String × String)
  annotations : List (String × String)
deriving DecidableEq

/-- `kube::core::DynamicObject`: type info, metadata and an opaque body. -/
structure DynamicObject where
  types : Option TypeMeta
  metadata : ObjectMeta
  data : Json
deriving DecidableEq

/-- `Object` from `src/objects.rs`: a dynamic object paired with the
resource descriptor used to address the object-store endpoint. -/
structure Object where
  api_resource : ApiResource
  dyn_object : DynamicObject
deriving DecidableEq

/-- `split_api_version` from `src/k8s/api_resource.rs`: `group/version`
splits at the first slash; a bare version has an empty group. -/
def split_api_version (apiVersion : String) : String × String :=
  match apiVersion.splitOn "/" with
  | [] => ("", apiVersion)
  | [v] => ("", v)
  | g :: rest => (g, String.intercalate "/" rest)

/-- `ApiResource::from_gvk` (kube library): builds a descriptor from a GVK.
The plural is produced by the library's pluralizer, which the claims never
inspect; it is modelled as the lowercased kind with an `s` appended. -/
def ApiResource.from_gvk (gvk : GroupVersionKind) : ApiResource :=
  { group := gvk.group
    version := gvk.version
    apiVersion := if gvk.group = "" then gvk.version else gvk.group ++ "/" ++ gvk.version
    kind := gvk.kind
    plural := gvk.kind.toLower ++ "s" }

/-- `TypeMeta::to_api_resource` from `src/k8s/api_resource.rs`. -/
def TypeMeta.to_api_resource (t : TypeMeta) : ApiResource :=
  let gv := split_api_version t.apiVersion
  ApiResource.from_gvk ⟨gv.1, gv.2, t.kind⟩

/-- `DynamicObject::try_to_api_resource` from `src/k8s/api_resource.rs`. -/
def DynamicObject.try_to_api_resource (d : DynamicObject) : Option ApiResource :=
  d.types.map TypeMeta.to_api_resource

/-- `Identifier::from_api_resource` from `src/identifier.rs` (the source
wraps the result in `Some` unconditionally; the option layer is dropped). -/
def Identifier.from_api_resource (name : String) (r : ApiResource) : Identifier :=
  ⟨⟨r.group, r.version, r.kind⟩, name⟩

/-- The identifier of an `Object` recomputed from its own name and
descriptor, mirroring `Identifier::from_resource`. -/
def Object.ident (o : Object) : Option Identifier :=
  o.dyn_object.metadata.name.map
    (fun n => Identifier.from_api_resource n o.api_resource)

/-- Label key `able-seaman/type` (`TYPE_LABEL` in `src/k8s.rs`). -/
def TYPE_LABEL : String := "able-seaman/type"

/-- Modelled from the spec: the `{tool}/release` label key of the wire
contract (§6); the defining k8s module snapshot is not in the tree. -/
def RELEASE_LABEL : String := "able-seaman/release"

/-- Annotation key `able-seaman/version` (`VERSION_LABEL` in `src/k8s.rs`). -/
def VERSION_LABEL : String := "able-seaman/version"

/-- Modelled from the spec: the tool version string (`meta::CRATE_VERSION`;
`meta.rs` is not in the tree). Its concrete value is never inspected. -/
def CRATE_VERSION : String := "0.1.0"

/-- Modelled from the spec: the values of the `{tool}/type` label (§6:
`lock`, `release-state`, `managed`, plus the `release` value used by the
older snapshot); the `k8s::ObjectType` definition is not in the tree. -/
inductive ObjectType where
  | managed
  | lock
  | releaseState
deriving DecidableEq

/-- Modelled from the spec: `ToLabel` for `k8s::ObjectType` — the
`{tool}/type` label with the matching well-known value. -/
def ObjectType.toLabel : ObjectType → String × String
  | .managed => (TYPE_LABEL, "managed")
  | .lock => (TYPE_LABEL, "lock")
  | .releaseState => (TYPE_LABEL, "release-state")

/-- `with_label` from `src/k8s/labels.rs`, specialized to the model
`DynamicObject`: inserts the key/value pair into `metadata.labels`. -/
def DynamicObject.withLabelKV (d : DynamicObject) (k v : String) : DynamicObject :=
  { d with metadata := { d.metadata with labels := kvInsert d.metadata.labels k v } }

/-- `with_annotation` (see `src/k8s/annotations.rs`) specialized to the
model `DynamicObject`: inserts the pair into `metadata.annotations`. -/
def DynamicObject.withAnnotationKV (d : DynamicObject) (k v : String) : DynamicObject :=
  { d with metadata := { d.metadata with annotations := kvInsert d.metadata.annotations k v } }

/-- `with_label` lifted to `Object` (the `kube::Resource` impl of `Object`
delegates metadata access to the wrapped dynamic object). -/
def Object.withLabelKV (o : Object) (k v : String) : Object :=
  { o with dyn_object := o.dyn_object.withLabelKV k v }

/-- `with_annotation` lifted to `Object`. -/
def Object.withAnnotationKV (o : Object) (k v : String) : Object :=
  { o with dyn_object := o.dyn_object.withAnnotationKV k v }

/-- `ReleasePlan::tag_object` from `src/release/plan.rs`: label the object
as managed, label it with the release name, and stamp the tool version
annotation. -/
def tag_object (release_name : String) (o : Object) : Object :=
  ((o.withLabelKV TYPE_LABEL "managed").withLabelKV RELEASE_LABEL release_name).withAnnotationKV
    VERSION_LABEL CRATE_VERSION

/-- `release::Objects` / `objects::Objects`: a finite map from identifiers
to objects, modelled as an association list with unique keys. -/
abbrev Objects := List (Identifier × Object)

/-- `Objects::contains`: is an identifier bound in the map? -/
def Objects.containsKey (m : Objects) (k : Identifier) : Bool :=
  m.any (fun kv => kv.1 = k)

/-- `Objects::get`: first binding of an identifier. -/
def Objects.get (m : Objects) (k : Identifier) : Option Object :=
  (m.find? (fun kv => kv.1 = k)).map (·.2)

/-- `Create` from `src/release/plan.rs`. -/
structure Create where
  new : Object
deriving DecidableEq

/-- `Upgrade` from `src/release/plan.rs`. -/
structure Upgrade where
  new : Object
  old : Object
deriving DecidableEq

/-- `Delete` from `src/release/plan.rs`. -/
structure Delete where
  old : Object
deriving DecidableEq

/-- `ReleasePlan` from `src/release/plan.rs`. -/
structure ReleasePlan where
  creations : List Create
  upgrades : List Upgrade
  deletions : List Delete
deriving DecidableEq

/-- `ReleasePlan::new` from `src/release/plan.rs`: categorize the desired
(`new_objects`) and previous (`old_objects`) sets by identifier membership
and tag every carried object copy. -/
def ReleasePlan.new (release_name : String) (new_objects old_objects : Objects) :
    ReleasePlan :=
  let with_meta := fun (o : Object) => tag_object release_name o
  { creations :=
      (new_objects.filter (fun kv => !old_objects.containsKey kv.1)).map
        (fun kv => { new := with_meta kv.2 })
    upgrades :=
      new_objects.filterMap (fun kv =>
        (old_objects.get kv.1).map (fun old =>
          { new := with_meta kv.2, old := with_meta old }))
    deletions :=
      (old_objects.filter (fun kv => !new_objects.containsKey kv.1)).map
        (fun kv => { old := with_meta kv.2 }) }

/-- `ReleasePlan::undo` from `src/release/plan.rs`: swap creations with
deletions and swap the new/old objects of every upgrade. -/
def ReleasePlan.undo (p : ReleasePlan) : ReleasePlan :=
  { creations := p.deletions.map (fun del => { new := del.old })
    deletions := p.creations.map (fun create => { old := create.new })
    upgrades := p.upgrades.map (fun upgrade => { new := upgrade.old, old := upgrade.new }) }

/-- `transaction::Action` from `src/k8s/transaction.rs`. -/
inductive Action where
  | create
  | apply
  | delete
deriving DecidableEq

/-- A `kube::Client` handle. Handles are interchangeable clones of one
transport; the model numbers them so that threading (which handle a call
uses) is observable: each successful call yields the successor handle. -/
abbrev Client := Nat

/-- The transport oracle: decides whether an object-store call (an action
applied to an object) succeeds. The transport is an external collaborator
(spec §6), so its outcomes are a parameter of the model. -/
abbrev TxEnv := Action → Object → Bool

/-- `transaction::Error` (the cause recorded for a failed call), modelled
as the failing action/object pair. -/
structure TxError where
  action : Action
  object : Object
deriving DecidableEq

/-- `rollback::Error` from `src/release/rollback.rs`: the failing
transaction error together with the rollback action and object. -/
structure RollbackFailure where
  error : TxError
  action : Action
  object : Object
deriving DecidableEq

/-- `release::Error` as built by `on_err_rollback` in `src/release/plan.rs`:
either the forward cause alone (rollback completed) or the rollback failure
paired with the forward cause. -/
inductive RelError where
  | releaseError (error : TxError)
  | rollbackError (error : RollbackFailure) (cause : TxError)
deriving DecidableEq

/-- `rollback::Plan` from `src/release/rollback.rs`: three vectors of
inverse actions. -/
structure RPlan where
  creations : List Object
  upgrades : List Object
  deletions : List Object
deriving DecidableEq

/-- `rollback::Plan::new`. -/
def RPlan.new : RPlan := ⟨[], [], []⟩

/-- `rollback::Plan::register` from `src/release/rollback.rs`: push the
object into the vector selected by the rollback action. -/
def RPlan.register (p : RPlan) : Action × Object → RPlan
  | (.create, o) => { p with creations := p.creations ++ [o] }
  | (.apply, o) => { p with upgrades := p.upgrades ++ [o] }
  | (.delete, o) => { p with deletions := p.deletions ++ [o] }

/-- One phase of `rollback::Plan::execute`: perform the given action on each
object in order, stopping at the first error; returns the trace of attempted
calls and the resulting client or rollback failure. -/
def runRollbackSeq (env : TxEnv) (a : Action) : List Object → Client →
    List (Action × Object) × Except RollbackFailure Client
  | [], cl => ([], .ok cl)
  | o :: rest, cl =>
      if env a o then
        let r := runRollbackSeq env a rest (cl + 1)
        ((a, o) :: r.1, r.2)
      else ([(a, o)], .error ⟨⟨a, o⟩, a, o⟩)

/-- `rollback::Plan::execute` from `src/release/rollback.rs`: creations,
then upgrades, then deletions, stopping at the first error. The trace of
attempted calls is returned alongside for verification. -/
def RPlan.executeTrace (env : TxEnv) (p : RPlan) (cl : Client) :
    List (Action × Object) × Except RollbackFailure Client :=
  match runRollbackSeq env .create p.creations cl with
  | (t1, .error e) => (t1, .error e)
  | (t1, .ok cl1) =>
    match runRollbackSeq env .apply p.upgrades cl1 with
    | (t2, .error e) => (t1 ++ t2, .error e)
    | (t2, .ok cl2) =>
      match runRollbackSeq env .delete p.deletions cl2 with
      | (t3, r3) => (t1 ++ t2 ++ t3, r3)

/-- The mutable state threaded through `ReleasePlan::execute`: the current
client, the rollback client captured at entry, the rollback ledger, and (as
verification ghost state) the sequence of registered inverses in program
order. -/
structure ExecState where
  client : Client
  rollbackClient : Client
  ledger : RPlan
  registered : List (Action × Object)
deriving DecidableEq

/-- The information available at the point `ReleasePlan::execute` fails: the
ledger and registration ghost trace at the failing step, the client handle
the rollback ran against, the trace of rollback calls, and the
`release::Error` produced by `on_err_rollback`. -/
structure FailureInfo where
  ledger : RPlan
  registered : List (Action × Object)
  rollbackClient : Client
  rollbackTrace : List (Action × Object)
  error : RelError
deriving DecidableEq

/-- One forward loop of `ReleasePlan::execute` (`src/release/plan.rs`):
`fwd` gives the transaction issued for an entry and `inv` its
`Rollbackable::to_rollback` inverse. On success the inverse is registered;
on failure the accumulated ledger is executed against the rollback client
and the resulting `release::Error` is returned. -/
def runPhase (env : TxEnv) (fwd inv : α → Action × Object) :
    List α → ExecState → Except FailureInfo ExecState
  | [], st => .ok st
  | x :: rest, st =>
      if env (fwd x).1 (fwd x).2 then
        runPhase env fwd inv rest
          { st with
            client := st.client + 1
            ledger := st.ledger.register (inv x)
            registered := st.registered ++ [inv x] }
      else
        let r := st.ledger.executeTrace env st.rollbackClient
        .error
          { ledger := st.ledger
            registered := st.registered
            rollbackClient := st.rollbackClient
            rollbackTrace := r.1
            error :=
              match r.2 with
              | .ok _ => .releaseError ⟨(fwd x).1, (fwd x).2⟩
              | .error re => .rollbackError re ⟨(fwd x).1, (fwd x).2⟩ }

/-- `ReleasePlan::execute` from `src/release/plan.rs`: clone a rollback
client at entry, then run creations (create, inverse delete of `new`),
upgrades (apply of `new`, inverse apply of `old`) and deletions (delete of
`old`, inverse create of `old`), registering inverses after each success. -/
def ReleasePlan.execute (env : TxEnv) (p : ReleasePlan) (client : Client) :
    Except FailureInfo Client :=
  match runPhase env (fun c => (.create, c.new)) (fun c => (.delete, c.new))
      p.creations ⟨client, client, RPlan.new, []⟩ with
  | .error i => .error i
  | .ok st1 =>
    match runPhase env (fun u => (.apply, u.new)) (fun u => (.apply, u.old))
        p.upgrades st1 with
    | .error i => .error i
    | .ok st2 =>
      match runPhase env (fun d => (.delete, d.old)) (fun d => (.create, d.old))
          p.deletions st2 with
      | .error i => .error i
      | .ok st3 => .ok st3.client

/-- `manager::ReleaseStateError` from `src/manager.rs`. -/
inductive ReleaseStateError where
  | corruptReleaseState
  | jsonError (msg : String)
  | updateError (error : TxError)
  | kubeError (msg : String)
deriving DecidableEq

/-- `manager::ReleaseState` from `src/manager.rs` (objects of the current
generation and the LIFO history of previous generations). -/
structure ReleaseState where
  current : Objects
  history : List Objects
deriving DecidableEq

/-- `manager::Error` from `src/manager.rs`. -/
inductive ManagerError where
  | kubeError (msg : String)
  | releaseStateError (error : ReleaseStateError)
  | releaseError (state : ReleaseState) (error : RelError)
deriving DecidableEq

/-- `manager::DeployResult` from `src/manager.rs`. -/
inductive DeployResult where
  | unchanged
  | installed (plan : ReleasePlan)
  | upgraded (plan : ReleasePlan)
deriving DecidableEq

/-- The persistence tail of `Manager::deploy` from `src/manager.rs` (the
same code shape on the install and upgrade paths): the plan has executed
successfully and `state.apply` has produced `persistResult`. On persistence
failure the undo plan is executed; an undo failure is mapped to
`Error::ReleaseError` and returned by `?`, otherwise the persistence error
is returned via `From<ReleaseStateError>`. -/
def deployPersistPhase (env : TxEnv) (client : Client) (isInstall : Bool)
    (plan : ReleasePlan) (state : ReleaseState)
    (persistResult : Except ReleaseStateError Unit) : Except ManagerError DeployResult :=
  match persistResult with
  | .ok _ => .ok (if isInstall then .installed plan else .upgraded plan)
  | .error err_cause =>
      match (plan.undo).execute env client with
      | .ok _ => .error (.releaseStateError err_cause)
      | .error info => .error (.releaseError state info.error)

/-- `kube::Error` as matched by the lock and state store: an API error
response (status code and reason) or any other transport failure. -/
inductive KubeError where
  | api (code : Nat) (reason : String)
  | other (msg : String)
deriving DecidableEq

/-- `kube::api::ListParams` (the fields the core sets): a label selector
and an optional timeout in seconds. -/
structure ListParams where
  labelSelector : String
  timeout : Option Nat
deriving DecidableEq

/-- The list params built inside `wait_for_deletion` in `src/k8s/lock.rs`:
the single `type=lock` label as a selector, with a 10 second timeout. -/
def lockWatchParams : ListParams :=
  { labelSelector := TYPE_LABEL ++ "=lock", timeout := some 10 }

/-- A watch event as consumed by `wait_for_deletion`: only `Deleted` events
(with the name of the deleted object) are distinguished. -/
inductive WatchEvent where
  | deleted (name : String)
  | otherEvent
deriving DecidableEq

/-- A watch transport: maps the list params of the `api.watch` call to
either a transport error or the stream contents — each `try_next` item is
an event or a stream error, and the list ends where the stream closes. -/
abbrev WatchFn := ListParams → Except KubeError (List (Except KubeError WatchEvent))

/-- The `while let Some(event) = stream.try_next().await?` loop of
`wait_for_deletion` in `src/k8s/lock.rs`: stop with `Ok` at a deletion
event for `name`, propagate a stream error, and return `Ok` when the
stream closes without a matching deletion. -/
def processStream (name : String) : List (Except KubeError WatchEvent) →
    Except KubeError Unit
  | [] => .ok ()
  | .error e :: _ => .error e
  | .ok (.deleted n) :: rest =>
      if n = name then .ok () else processStream name rest
  | .ok .otherEvent :: rest => processStream name rest

/-- `wait_for_deletion` from `src/k8s/lock.rs`: watch with the `type=lock`
selector and 10s timeout, then scan the stream. -/
def wait_for_deletion (name : String) (watch : WatchFn) : Except KubeError Unit :=
  match watch lockWatchParams with
  | .error e => .error e
  | .ok items => processStream name items

/-- `kube::error::ErrorResponse { reason, code: 409, .. } if reason ==
"AlreadyExists"`: the conflict shape consumed by the lock loop. -/
def isAlreadyExistsConflict : KubeError → Bool
  | .api code reason => code = 409 && reason = "AlreadyExists"
  | .other _ => false

/-- One iteration of the acquisition loop of `Lock::new_with`: the outcome
of the `api.create` call, and the watch transport available if this
iteration hits a conflict. -/
structure LockRound where
  createResult : Except KubeError Unit
  watch : WatchFn

/-- Outcome of the modelled acquisition loop, counting `api.create`
attempts. `outOfRounds` is a model artifact: the source loop would keep
iterating, and the supplied round list was exhausted. -/
inductive LockOutcome where
  | acquired (createAttempts : Nat)
  | failed (error : KubeError) (createAttempts : Nat)
  | outOfRounds (createAttempts : Nat)
deriving DecidableEq

/-- The `loop` of `Lock::new_with` from `src/k8s/lock.rs`: try to create the
lock object; on a 409 `AlreadyExists` conflict wait for a deletion and loop;
on any other creation error, or an error from the wait, fail. -/
def lockAcquireLoop (name : String) : List LockRound → Nat → LockOutcome
  | [], n => .outOfRounds n
  | round :: rest, n =>
      match round.createResult with
      | .ok _ => .acquired (n + 1)
      | .error e =>
          if isAlreadyExistsConflict e then
            match wait_for_deletion name round.watch with
            | .ok _ => lockAcquireLoop name rest (n + 1)
            | .error we => .failed we (n + 1)
          else .failed e (n + 1)

/-- `BTreeMap<String, DynamicObject>` insert as used by `extend` in
`find_release_objects`: replace the value of an existing key, else append. -/
def nameMapInsert : List (String × DynamicObject) → String → DynamicObject →
    List (String × DynamicObject)
  | [], k, v => [(k, v)]
  | (k', v') :: rest, k, v =>
      if k' = k then (k, v) :: rest else (k', v') :: nameMapInsert rest k v

/-- `find_release_objects` from `src/release/verify.rs`, given the
label-filtered listings that the transport returns for each discovered
resource type: every listed item that has a `metadata.name` is inserted
into one accumulated map keyed by that name. -/
def find_release_objects (listings : List (List DynamicObject)) :
    List (String × DynamicObject) :=
  listings.foldl
    (fun all_items items =>
      items.foldl
        (fun acc item =>
          match item.metadata.name with
          | some name => nameMapInsert acc name item
          | none => acc)
        all_items)
    []

/-- `Object::try_from_dynamic_object` from `src/objects.rs`: extract the
resource descriptor from the object's own type fields. -/
def Object.try_from (dyn_object : DynamicObject) : Except String Object :=
  match dyn_object.try_to_api_resource with
  | some api_resource => .ok ⟨api_resource, dyn_object⟩
  | none => .error "Unable to extract ApiResource from DynamicObject"

/-- `Object::name` from `src/objects.rs`. -/
def Object.name (o : Object) : Option String :=
  o.dyn_object.metadata.name

/-- `objects::BuilderError` from `src/objects.rs` (the variants reachable
from `add_dynamic_object`). -/
inductive BuilderError where
  | duplicateObject (identifier : Identifier)
  | objectWithoutName (object : Object)
  | badDynamicObject (error : String)
deriving DecidableEq

/-- `objects::Builder` from `src/objects.rs`: the identifier-keyed map
under construction. -/
structure Builder where
  objects : Objects
deriving DecidableEq

/-- `HashMap::insert` on the identifier-keyed map: returns the updated map
and the previous value of the key, if any. -/
def objectsInsert : Objects → Identifier → Object → Objects × Option Object
  | [], k, v => ([(k, v)], none)
  | (k', v') :: rest, k, v =>
      if k' = k then ((k, v) :: rest, some v')
      else
        let r := objectsInsert rest k v
        ((k', v') :: r.1, r.2)

/-- `Builder::add_dynamic_object` from `src/objects.rs`: convert, require a
name, build the identifier, insert — and report `DuplicateObject` when the
insert displaced a previous binding (the insertion is kept). -/
def Builder.add_dynamic_object (b : Builder) (dyn_object : DynamicObject) :
    Builder × Except BuilderError Unit :=
  match Object.try_from dyn_object with
  | .error e => (b, .error (.badDynamicObject e))
  | .ok object =>
      match object.name with
      | none => (b, .error (.objectWithoutName object))
      | some name =>
          let identifier := Identifier.from_api_resource name object.api_resource
          let r := objectsInsert b.objects identifier object
          match r.2 with
          | some _ => (⟨r.1⟩, .error (.duplicateObject identifier))
          | none => (⟨r.1⟩, .ok ())

/-! Verification-side accessors, property bundles and concrete sample data
used to state and witness the claims. -/

/-- The rollback trace of a failed execution (empty for a success). -/
def traceOfOutcome : Except FailureInfo Client → List (Action × Object)
  | .error info => info.rollbackTrace
  | .ok _ => []

/-- The ghost registration trace of a failed execution. -/
def registeredOfOutcome : Except FailureInfo Client → List (Action × Object)
  | .error info => info.registered
  | .ok _ => []

/-- Did the execution fail? -/
def isErrOutcome : Except FailureInfo Client → Bool
  | .error _ => true
  | .ok _ => false

/-- The three tagging marks of claim C6 on one object: the managed type
label, the release-name label and the tool-version annotation. -/
def taggedOk (release_name : String) (o : Object) : Prop :=
  kvGet o.dyn_object.metadata.labels TYPE_LABEL = some "managed" ∧
  kvGet o.dyn_object.metadata.labels RELEASE_LABEL = some release_name ∧
  kvGet o.dyn_object.metadata.annotations VERSION_LABEL = some CRATE_VERSION

/-- Conclusion bundle of claim C3: at the failing step, the ledger holds
exactly the inverses of the successfully completed forward prefixes, in
registration order, and the failing step contributed no inverse. -/
def LedgerInventory (env : TxEnv) (p : ReleasePlan) (info : FailureInfo) : Prop :=
  ∃ cs us ds,
    cs <+: p.creations ∧ us <+: p.upgrades ∧ ds <+: p.deletions ∧
    (∀ c ∈ cs, env .create c.new = true) ∧
    (∀ u ∈ us, env .apply u.new = true) ∧
    (∀ d ∈ ds, env .delete d.old = true) ∧
    info.ledger = ⟨ds.map (·.old), us.map (·.old), cs.map (·.new)⟩ ∧
    info.registered =
      cs.map (fun c => (Action.delete, c.new)) ++
      us.map (fun u => (Action.apply, u.old)) ++
      ds.map (fun d => (Action.create, d.old)) ∧
    ((∃ c rest, p.creations = cs ++ c :: rest ∧ env .create c.new = false ∧
        us = [] ∧ ds = []) ∨
     (cs = p.creations ∧ (∃ u rest, p.upgrades = us ++ u :: rest ∧
        env .apply u.new = false ∧ ds = [])) ∨
     (cs = p.creations ∧ us = p.upgrades ∧ (∃ d rest, p.deletions = ds ++ d :: rest ∧
        env .delete d.old = false)))

/-- Conclusion bundle of the amended claim C2: the rollback ran against the
client captured at entry and its trace is the ledger grouped by inverse
action class — create, then apply, then delete — keeping registration order
within each class. -/
def RollbackClassOrder (cl : Client) (info : FailureInfo) : Prop :=
  info.rollbackClient = cl ∧
  info.rollbackTrace =
    info.ledger.creations.map (fun o => (Action.create, o)) ++
    info.ledger.upgrades.map (fun o => (Action.apply, o)) ++
    info.ledger.deletions.map (fun o => (Action.delete, o)) ∧
  info.ledger.creations =
    (info.registered.filter (fun e => e.1 = Action.create)).map (·.2) ∧
  info.ledger.upgrades =
    (info.registered.filter (fun e => e.1 = Action.apply)).map (·.2) ∧
  info.ledger.deletions =
    (info.registered.filter (fun e => e.1 = Action.delete)).map (·.2)

/-- Conclusion bundle of claim C1: the plan of `(name, desired, previous)`
categorizes purely by identifier membership, carries the tagged images of
the mapped objects, and its action classes partition the identifier union. -/
def PlanPartition (name : String) (desired previous : Objects) : Prop :=
  (∀ id : Identifier,
    (desired.containsKey id = true ∧ previous.containsKey id = false) ↔
      ∃ c ∈ (ReleasePlan.new name desired previous).creations, c.new.ident = some id) ∧
  (∀ id : Identifier,
    (desired.containsKey id = true ∧ previous.containsKey id = true) ↔
      ∃ u ∈ (ReleasePlan.new name desired previous).upgrades, u.new.ident = some id) ∧
  (∀ id : Identifier,
    (previous.containsKey id = true ∧ desired.containsKey id = false) ↔
      ∃ d ∈ (ReleasePlan.new name desired previous).deletions, d.old.ident = some id) ∧
  (∀ c ∈ (ReleasePlan.new name desired previous).creations, ∀ id : Identifier,
    c.new.ident = some id →
      ∃ o, desired.get id = some o ∧ c.new = tag_object name o) ∧
  (∀ u ∈ (ReleasePlan.new name desired previous).upgrades, ∀ id : Identifier,
    u.new.ident = some id →
      ∃ dn po, desired.get id = some dn ∧ previous.get id = some po ∧
        u.new = tag_object name dn ∧ u.old = tag_object name po) ∧
  (∀ d ∈ (ReleasePlan.new name desired previous).deletions, ∀ id : Identifier,
    d.old.ident = some id →
      ∃ o, previous.get id = some o ∧ d.old = tag_object name o) ∧
  (∀ id : Identifier, desired.containsKey id = true ↔
    ((∃ c ∈ (ReleasePlan.new name desired previous).creations, c.new.ident = some id) ∨
     (∃ u ∈ (ReleasePlan.new name desired previous).upgrades, u.new.ident = some id))) ∧
  (∀ id : Identifier, previous.containsKey id = true ↔
    ((∃ d ∈ (ReleasePlan.new name desired previous).deletions, d.old.ident = some id) ∨
     (∃ u ∈ (ReleasePlan.new name desired previous).upgrades, u.old.ident = some id))) ∧
  (∀ id : Identifier,
    ¬((∃ c ∈ (ReleasePlan.new name desired previous).creations, c.new.ident = some id) ∧
      (∃ u ∈ (ReleasePlan.new name desired previous).upgrades, u.new.ident = some id)) ∧
    ¬((∃ c ∈ (ReleasePlan.new name desired previous).creations, c.new.ident = some id) ∧
      (∃ d ∈ (ReleasePlan.new name desired previous).deletions, d.old.ident = some id)) ∧
    ¬((∃ u ∈ (ReleasePlan.new name desired previous).upgrades, u.new.ident = some id) ∧
      (∃ d ∈ (ReleasePlan.new name desired previous).deletions, d.old.ident = some id))) ∧
  (∀ id : Identifier,
    (desired.containsKey id = true ∨ previous.containsKey id = true) ↔
      ((∃ c ∈ (ReleasePlan.new name desired previous).creations, c.new.ident = some id) ∨
       (∃ u ∈ (ReleasePlan.new name desired previous).upgrades, u.new.ident = some id) ∨
       (∃ d ∈ (ReleasePlan.new name desired previous).deletions, d.old.ident = some id)))

/-- A sample resource descriptor for concrete instances. -/
def sampleAR : ApiResource := ⟨"", "v1", "v1", "ConfigMap", "configmaps"⟩

/-- A sample object with the given name. -/
def mkObj (n : String) : Object :=
  ⟨sampleAR, ⟨some ⟨"v1", "ConfigMap"⟩, ⟨some n, [], []⟩, Json.null⟩⟩

/-- A sample object with the given name and body. -/
def mkObjD (n : String) (d : Json) : Object :=
  ⟨sampleAR, ⟨some ⟨"v1", "ConfigMap"⟩, ⟨some n, [], []⟩, d⟩⟩

/-- The identifier of `mkObj n`. -/
def identOf (n : String) : Identifier := ⟨⟨"", "v1", "ConfigMap"⟩, n⟩

/-- Transport for C2: every call succeeds except applying the object
named `v`. -/
def envC2 : TxEnv :=
  fun a o => !(a == Action.apply && o.dyn_object.metadata.name == some "v")

/-- Plan for C2: one creation, then an upgrade that succeeds and an upgrade
whose forward apply fails. -/
def planC2 : ReleasePlan :=
  ⟨[⟨mkObj "c"⟩], [⟨mkObj "u-new", mkObj "u-old"⟩, ⟨mkObj "v", mkObj "v-old"⟩], []⟩

/-- The failure information produced by executing `planC2` under `envC2`. -/
def infoC2 : FailureInfo :=
  { ledger := ⟨[], [mkObj "u-old"], [mkObj "c"]⟩
    registered := [(Action.delete, mkObj "c"), (Action.apply, mkObj "u-old")]
    rollbackClient := 0
    rollbackTrace := [(Action.apply, mkObj "u-old"), (Action.delete, mkObj "c")]
    error := .releaseError ⟨Action.apply, mkObj "v"⟩ }

/-- Transport for C3's witness: creating the object named `x` fails. -/
def envC3 : TxEnv :=
  fun a o => !(a == Action.create && o.dyn_object.metadata.name == some "x")

/-- Plan for C3's witness: a single creation that fails immediately. -/
def planC3 : ReleasePlan := ⟨[⟨mkObj "x"⟩], [], []⟩

/-- The failure information produced by executing `planC3` under `envC3`. -/
def infoC3 : FailureInfo :=
  { ledger := RPlan.new
    registered := []
    rollbackClient := 0
    rollbackTrace := []
    error := .releaseError ⟨Action.create, mkObj "x"⟩ }

/-- Plan for C4's counterexample: one deletion, so its undo plan creates
the deleted object back. -/
def planC4 : ReleasePlan := ⟨[], [], [⟨mkObj "d"⟩]⟩

/-- Transport for C4's counterexample: re-creating the object named `d`
(the undo of its deletion) fails. -/
def envC4 : TxEnv :=
  fun a o => !(a == Action.create && o.dyn_object.metadata.name == some "d")

/-- An empty release state snapshot for the C4 instances. -/
def stateC4 : ReleaseState := ⟨[], []⟩

/-- The persistence failure for the C4 instances. -/
def ecC4 : ReleaseStateError := .kubeError "persist failed"

/-- A transport on which every call succeeds. -/
def envAllOk : TxEnv := fun _ _ => true

/-- The create-conflict rejection consumed by the lock loop. -/
def conflict409 : KubeError := .api 409 "AlreadyExists"

/-- A watch transport whose stream breaks with an error on the first item. -/
def brokenWatch : WatchFn := fun _ => .ok [.error (.other "stream broke")]

/-- A watch transport that reports the deletion of the lock named `r`. -/
def deletionWatch : WatchFn := fun _ => .ok [.ok (.deleted "r")]

/-- Rounds for C8's counterexample: a conflict whose wait hits a broken
stream, followed by a round whose creation would succeed. -/
def roundsC8 : List LockRound :=
  [⟨.error conflict409, brokenWatch⟩, ⟨.ok (), fun _ => .ok []⟩]

/-- Dynamic object for C9: name `a`, kind `Deployment`. -/
def dobjC9a : DynamicObject :=
  ⟨some ⟨"apps/v1", "Deployment"⟩, ⟨some "a", [], []⟩, Json.null⟩

/-- Dynamic object for C9: the same name `a`, but kind `Service`. -/
def dobjC9b : DynamicObject :=
  ⟨some ⟨"v1", "Service"⟩, ⟨some "a", [], []⟩, Json.null⟩

/-- Desired set for C1's witness. -/
def desiredC1 : Objects := [(identOf "a", mkObj "a"), (identOf "b", mkObj "b")]

/-- Previous set for C1's witness: shares `b`, keeps `c`, lacks `a`. -/
def previousC1 : Objects :=
  [(identOf "b", mkObjD "b" (Json.num 7)), (identOf "c", mkObj "c")]

/-- JSON sample for C5's witness: an object with two scalar fields. -/
def jsonC5 : Json :=
  Json.obj (.cons "a" (.num 1) (.cons "b" (.str "x") .nil))

/-- Builder for C10's witness: already holds a binding for `identOf "a"`. -/
def builderC10 : Builder := ⟨[(identOf "a", mkObjD "a" (Json.num 1))]⟩

/-- Dynamic object for C10's witness: maps to the identifier `identOf "a"`
already bound in `builderC10`. -/
def dobjC10 : DynamicObject :=
  ⟨some ⟨"v1", "ConfigMap"⟩, ⟨some "a", [], []⟩, Json.num 2⟩

/-! General lemmas about the association-map helpers. -/

theorem kvGet_kvInsert_self (m : List (String × String)) (k v : String) :
    kvGet (kvInsert m k v) k = some v := by
  induction m with
  | nil => simp [kvInsert, kvGet]
  | cons hd tl ih =>
    by_cases h : hd.1 = k
    · simp [kvInsert, h, kvGet]
    · simp [kvInsert, h, kvGet, ih]

theorem kvGet_kvInsert_ne (m : List (String × String)) (k v k' : String)
    (h : k ≠ k') : kvGet (kvInsert m k v) k' = kvGet m k' := by
  induction m with
  | nil => simp [kvInsert, kvGet, h]
  | cons hd tl ih =>
    by_cases hh : hd.1 = k
    · subst hh
      simp [kvInsert, kvGet, h, Ne.symm h, ih]
    · by_cases hk : hd.1 = k'
      · simp [kvInsert, kvGet, hh, hk, Ne.symm h]
      · simp [kvInsert, kvGet, hh, hk, ih]

/-! Lemmas about the identifier-keyed map `Objects`. -/

theorem Objects.containsKey_iff (m : Objects) (k : Identifier) :
    m.containsKey k = true ↔ ∃ kv ∈ m, kv.1 = k := by
  simp [Objects.containsKey, List.any_eq_true]

theorem Objects.get_cons_self (hd : Identifier × Object) (tl : Objects)
    (k : Identifier) (h : hd.1 = k) : Objects.get (hd :: tl) k = some hd.2 := by
  simp [Objects.get, List.find?_cons_of_pos, h]

theorem Objects.get_cons_ne (hd : Identifier × Object) (tl : Objects)
    (k : Identifier) (h : hd.1 ≠ k) : Objects.get (hd :: tl) k = Objects.get tl k := by
  simp only [Objects.get]
  rw [List.find?_cons_of_neg]
  simp [h]

theorem Objects.get_eq_some (m : Objects) (k : Identifier) (o : Object)
    (h : m.get k = some o) : ∃ kv ∈ m, kv.1 = k ∧ kv.2 = o := by
  unfold Objects.get at h
  cases hf : m.find? (fun kv => kv.1 = k) with
  | none => rw [hf] at h; simp at h
  | some kv =>
    rw [hf] at h
    simp at h
    have hm := List.mem_of_find?_eq_some hf
    have hp := List.find?_some hf
    simp at hp
    exact ⟨kv, hm, hp, h⟩

theorem Objects.get_isSome_of_contains (m : Objects) (k : Identifier)
    (h : m.containsKey k = true) : ∃ o, m.get k = some o := by
  rw [Objects.containsKey_iff] at h
  obtain ⟨kv, hm, hk⟩ := h
  induction m with
  | nil => simp at hm
  | cons hd tl ih =>
    by_cases hh : hd.1 = k
    · exact ⟨hd.2, Objects.get_cons_self hd tl k hh⟩
    · rcases List.mem_cons.mp hm with rfl | hm'
      · exact absurd hk hh
      · obtain ⟨o, ho⟩ := ih hm'
        exact ⟨o, by rw [Objects.get_cons_ne hd tl k hh]; exact ho⟩

theorem Objects.get_of_mem_nodup (m : Objects) (k : Identifier) (o : Object)
    (hm : (k, o) ∈ m) (hn : (m.map Prod.fst).Nodup) : m.get k = some o := by
  induction m with
  | nil => simp at hm
  | cons hd tl ih =>
    simp only [List.map_cons, List.nodup_cons] at hn
    rcases List.mem_cons.mp hm with heq | hm'
    · rw [← heq]
      exact Objects.get_cons_self _ _ _ rfl
    · have hne : hd.1 ≠ k := by
        intro hcontra
        exact hn.1 (by
          rw [hcontra]
          exact List.mem_map_of_mem Prod.fst hm')
      rw [Objects.get_cons_ne hd tl k hne]
      exact ih hm' hn.2

/-! Tagging lemmas. -/

theorem tag_object_taggedOk (release_name : String) (o : Object) :
    taggedOk release_name (tag_object release_name o) := by
  refine ⟨?_, ?_, ?_⟩
  · show kvGet (kvInsert (kvInsert o.dyn_object.metadata.labels TYPE_LABEL "managed")
      RELEASE_LABEL release_name) TYPE_LABEL = some "managed"
    rw [kvGet_kvInsert_ne _ _ _ _ (by decide : RELEASE_LABEL ≠ TYPE_LABEL)]
    exact kvGet_kvInsert_self _ _ _
  · show kvGet (kvInsert (kvInsert o.dyn_object.metadata.labels TYPE_LABEL "managed")
      RELEASE_LABEL release_name) RELEASE_LABEL = some release_name
    exact kvGet_kvInsert_self _ _ _
  · show kvGet (kvInsert o.dyn_object.metadata.annotations VERSION_LABEL CRATE_VERSION)
      VERSION_LABEL = some CRATE_VERSION
    exact kvGet_kvInsert_self _ _ _

theorem tag_object_ident (release_name : String) (o : Object) :
    (tag_object release_name o).ident = o.ident := by
  rfl

/-- C7: `undo` swaps creations with deletions and swaps the objects of each
upgrade, and applying it twice restores the original plan — here even with
the vector orders preserved exactly. -/
theorem C7_undo_involution (p : ReleasePlan) : p.undo.undo = p := by
  cases p with
  | mk creations upgrades deletions =>
    simp [ReleasePlan.undo, List.map_map, Function.comp_def]

/-- C6: every object inside every action of a freshly built plan carries the
managed-type label, the release-name label and the tool-version annotation,
and each such object is the tagged image (a copy) of one of the caller's
original objects, which plan construction leaves untouched. -/
theorem C6_tagging_universality (name : String) (desired previous : Objects) :
    (∀ c ∈ (ReleasePlan.new name desired previous).creations,
      taggedOk name c.new ∧ ∃ kv ∈ desired, c.new = tag_object name kv.2) ∧
    (∀ u ∈ (ReleasePlan.new name desired previous).upgrades,
      taggedOk name u.new ∧ taggedOk name u.old ∧
      (∃ kv ∈ desired, u.new = tag_object name kv.2) ∧
      (∃ kv ∈ previous, u.old = tag_object name kv.2)) ∧
    (∀ d ∈ (ReleasePlan.new name desired previous).deletions,
      taggedOk name d.old ∧ ∃ kv ∈ previous, d.old = tag_object name kv.2) := by
  refine ⟨?_, ?_, ?_⟩
  · intro c hc
    simp only [ReleasePlan.new, List.mem_map, List.mem_filter] at hc
    obtain ⟨kv, ⟨hkv, _⟩, rfl⟩ := hc
    exact ⟨tag_object_taggedOk name kv.2, kv, hkv, rfl⟩
  · intro u hu
    simp only [ReleasePlan.new, List.mem_filterMap] at hu
    obtain ⟨kv, hkv, hmap⟩ := hu
    cases hget : previous.get kv.1 with
    | none => rw [hget] at hmap; simp at hmap
    | some old =>
      rw [hget] at hmap
      simp only [Option.map_some'] at hmap
      obtain ⟨kvp, hkvp, _, hval⟩ := Objects.get_eq_some previous kv.1 old hget
      cases hmap
      exact ⟨tag_object_taggedOk name kv.2, tag_object_taggedOk name old,
        ⟨kv, hkv, rfl⟩, ⟨kvp, hkvp, by rw [hval]⟩⟩
  · intro d hd
    simp only [ReleasePlan.new, List.mem_map, List.mem_filter] at hd
    obtain ⟨kv, ⟨hkv, _⟩, rfl⟩ := hd
    exact ⟨tag_object_taggedOk name kv.2, kv, hkv, rfl⟩

/-! Characterization of the forward executor phases. -/

theorem runPhase_ok {α : Type} (env : TxEnv) (fwd inv : α → Action × Object)
    (xs : List α) (st st' : ExecState)
    (h : runPhase env fwd inv xs st = .ok st') :
    (∀ x ∈ xs, env (fwd x).1 (fwd x).2 = true) ∧
    st'.rollbackClient = st.rollbackClient ∧
    st'.ledger = xs.foldl (fun l x => l.register (inv x)) st.ledger ∧
    st'.registered = st.registered ++ xs.map inv := by
  induction xs generalizing st with
  | nil =>
    simp only [runPhase] at h
    cases h
    simp
  | cons x rest ih =>
    cases he : env (fwd x).1 (fwd x).2 with
    | false =>
      simp only [runPhase, he] at h
      simp at h
    | true =>
      simp only [runPhase, he, if_true] at h
      obtain ⟨h1, h2, h3, h4⟩ := ih _ h
      refine ⟨?_, ?_, ?_, ?_⟩
      · intro y hy
        rcases List.mem_cons.mp hy with rfl | hy'
        · exact he
        · exact h1 y hy'
      · exact h2
      · rw [h3]
        rfl
      · rw [h4]
        simp

theorem runPhase_err {α : Type} (env : TxEnv) (fwd inv : α → Action × Object)
    (xs : List α) (st : ExecState) (info : FailureInfo)
    (h : runPhase env fwd inv xs st = .error info) :
    ∃ pre x rest, xs = pre ++ x :: rest ∧
      (∀ y ∈ pre, env (fwd y).1 (fwd y).2 = true) ∧
      env (fwd x).1 (fwd x).2 = false ∧
      info.ledger = pre.foldl (fun l y => l.register (inv y)) st.ledger ∧
      info.registered = st.registered ++ pre.map inv ∧
      info.rollbackClient = st.rollbackClient ∧
      info.rollbackTrace = (info.ledger.executeTrace env st.rollbackClient).1 ∧
      info.error =
        (match (info.ledger.executeTrace env st.rollbackClient).2 with
         | .ok _ => RelError.releaseError ⟨(fwd x).1, (fwd x).2⟩
         | .error re => RelError.rollbackError re ⟨(fwd x).1, (fwd x).2⟩) := by
  induction xs generalizing st with
  | nil => simp [runPhase] at h
  | cons x rest ih =>
    cases he : env (fwd x).1 (fwd x).2 with
    | false =>
      simp only [runPhase, he, Bool.false_eq_true, if_false] at h
      refine ⟨[], x, rest, by simp, by simp, he, ?_⟩
      cases h
      simp
    | true =>
      simp only [runPhase, he, if_true] at h
      obtain ⟨pre, y, rest', heq, hpre, hy, hledger, hreg, hrb, htr, herr⟩ := ih _ h
      refine ⟨x :: pre, y, rest', by rw [heq]; rfl, ?_, hy, ?_, ?_, hrb, htr, herr⟩
      · intro z hz
        rcases List.mem_cons.mp hz with rfl | hz'
        · exact he
        · exact hpre z hz'
      · rw [hledger]
        rfl
      · rw [hreg]
        simp

/-! Registration folds per phase land in the matching ledger vector. -/

theorem foldl_register_delete (cs : List Create) (l : RPlan) :
    cs.foldl (fun acc c => acc.register (Action.delete, c.new)) l
      = { l with deletions := l.deletions ++ cs.map (·.new) } := by
  induction cs generalizing l with
  | nil => simp
  | cons c rest ih =>
    rw [List.foldl_cons, ih]
    simp [RPlan.register]

theorem foldl_register_apply (us : List Upgrade) (l : RPlan) :
    us.foldl (fun acc u => acc.register (Action.apply, u.old)) l
      = { l with upgrades := l.upgrades ++ us.map (·.old) } := by
  induction us generalizing l with
  | nil => simp
  | cons u rest ih =>
    rw [List.foldl_cons, ih]
    simp [RPlan.register]

theorem foldl_register_create (ds : List Delete) (l : RPlan) :
    ds.foldl (fun acc d => acc.register (Action.create, d.old)) l
      = { l with creations := l.creations ++ ds.map (·.old) } := by
  induction ds generalizing l with
  | nil => simp
  | cons d rest ih =>
    rw [List.foldl_cons, ih]
    simp [RPlan.register]

/-- Error-point characterization of `ReleasePlan.execute`, shared by the
ledger-inventory and rollback-order results: on failure, the ledger holds
exactly the inverses of the completed prefixes, the ghost registration
trace is those inverses in program order, the rollback client is the one
captured at entry, and the rollback trace/error come from executing that
ledger. -/
theorem execute_error_cases (env : TxEnv) (p : ReleasePlan) (cl : Client)
    (info : FailureInfo) (h : p.execute env cl = .error info) :
    info.rollbackClient = cl ∧
    info.rollbackTrace = (info.ledger.executeTrace env cl).1 ∧
    LedgerInventory env p info := by
  unfold ReleasePlan.execute at h
  split at h
  case _ i1 h1 =>
    cases h
    obtain ⟨pre, x, rest, heq, hpre, hx, hledger, hreg, hrb, htr, herr⟩ :=
      runPhase_err env _ _ _ _ _ h1
    rw [foldl_register_delete] at hledger
    refine ⟨hrb, htr, pre, [], [], ⟨x :: rest, heq.symm⟩,
      List.nil_prefix, List.nil_prefix, hpre, by simp, by simp, ?_, ?_, ?_⟩
    · rw [hledger]
      rfl
    · rw [hreg]
      simp
    · exact Or.inl ⟨x, rest, heq, hx, rfl, rfl⟩
  case _ st1 h1 =>
    obtain ⟨hall1, hrb1, hled1, hreg1⟩ := runPhase_ok env _ _ _ _ _ h1
    rw [foldl_register_delete] at hled1
    split at h
    case _ i2 h2 =>
      cases h
      obtain ⟨pre, x, rest, heq, hpre, hx, hledger, hreg, hrb, htr, herr⟩ :=
        runPhase_err env _ _ _ _ _ h2
      rw [hled1, foldl_register_apply] at hledger
      refine ⟨by rw [hrb, hrb1], by rw [htr, hrb1], p.creations, pre, [],
        List.prefix_refl _, ⟨x :: rest, heq.symm⟩, List.nil_prefix,
        hall1, hpre, by simp, ?_, ?_, ?_⟩
      · rw [hledger]
        rfl
      · rw [hreg, hreg1]
        simp
      · exact Or.inr (Or.inl ⟨rfl, x, rest, heq, hx, rfl⟩)
    case _ st2 h2 =>
      obtain ⟨hall2, hrb2, hled2, hreg2⟩ := runPhase_ok env _ _ _ _ _ h2
      rw [hled1, foldl_register_apply] at hled2
      split at h
      case _ i3 h3 =>
        cases h
        obtain ⟨pre, x, rest, heq, hpre, hx, hledger, hreg, hrb, htr, herr⟩ :=
          runPhase_err env _ _ _ _ _ h3
        rw [hled2, foldl_register_create] at hledger
        refine ⟨by rw [hrb, hrb2, hrb1], by rw [htr, hrb2, hrb1],
          p.creations, p.upgrades, pre, List.prefix_refl _, List.prefix_refl _,
          ⟨x :: rest, heq.symm⟩, hall1, hall2, hpre, ?_, ?_, ?_⟩
        · rw [hledger]
          rfl
        · rw [hreg, hreg2, hreg1]
          simp
        · exact Or.inr (Or.inr ⟨rfl, rfl, x, rest, heq, hx⟩)
      case _ st3 h3 =>
        simp at h

/-- C3: at a failure of `ReleasePlan::execute`, the rollback ledger contains
exactly the inverses of the forward steps that completed successfully — the
delete of each created object, the apply of each upgraded object's old
image, the create of each deleted object — and neither the failing step nor
the steps that never ran contributed an inverse. -/
theorem C3_ledger_inventory (env : TxEnv) (p : ReleasePlan) (cl : Client)
    (info : FailureInfo) (h : p.execute env cl = .error info) :
    LedgerInventory env p info :=
  (execute_error_cases env p cl info h).2.2

/-- Witness for C3: a concrete plan whose first creation fails; the ledger
at the failure is empty, exactly the inverses of the (zero) completed
steps. -/
theorem C3_ledger_inventory_witness :
    ReleasePlan.execute envC3 planC3 0 = .error infoC3 ∧
    LedgerInventory envC3 planC3 infoC3 :=
  ⟨rfl, C3_ledger_inventory envC3 planC3 0 infoC3 rfl⟩

/-! Rollback execution with an all-successful transport. -/

theorem runRollbackSeq_all_ok (env : TxEnv) (a : Action) (os : List Object)
    (cl : Client) (h : ∀ o ∈ os, env a o = true) :
    runRollbackSeq env a os cl = (os.map (fun o => (a, o)), .ok (cl + os.length)) := by
  induction os generalizing cl with
  | nil => simp [runRollbackSeq]
  | cons o rest ih =>
    have ho : env a o = true := h o (by simp)
    rw [runRollbackSeq, if_pos ho, ih (cl + 1) (fun x hx => h x (by simp [hx]))]
    have harith : cl + 1 + rest.length = cl + (o :: rest).length := by
      simp only [List.length_cons]
      rw [Nat.add_assoc, Nat.add_comm 1 rest.length]
    rw [harith]
    simp

theorem executeTrace_all_ok (env : TxEnv) (p : RPlan) (cl : Client)
    (hc : ∀ o ∈ p.creations, env .create o = true)
    (hu : ∀ o ∈ p.upgrades, env .apply o = true)
    (hdl : ∀ o ∈ p.deletions, env .delete o = true) :
    p.executeTrace env cl =
      (p.creations.map (fun o => (Action.create, o)) ++
       p.upgrades.map (fun o => (Action.apply, o)) ++
       p.deletions.map (fun o => (Action.delete, o)),
       .ok (cl + p.creations.length + p.upgrades.length + p.deletions.length)) := by
  unfold RPlan.executeTrace
  simp only [runRollbackSeq_all_ok env .create p.creations cl hc]
  simp only [runRollbackSeq_all_ok env .apply p.upgrades _ hu]
  simp only [runRollbackSeq_all_ok env .delete p.deletions _ hdl]

theorem filter_fst_map {β : Type} (xs : List β) (f : β → Object) (a b : Action) :
    (xs.map (fun x => (a, f x))).filter (fun e => e.1 = b) =
      if a = b then xs.map (fun x => (a, f x)) else [] := by
  induction xs with
  | nil => simp
  | cons x rest ih =>
    by_cases hab : a = b <;> simp [hab, ih]

/-- C2 (amended): when a forward step fails, the rollback ledger executes
against the separate client handle captured at entry — before the failing
call — grouped by inverse action class in the order create, apply, delete
(the reverse of the forward phase order), with registration order preserved
within each class. -/
theorem C2_rollback_class_order (env : TxEnv) (p : ReleasePlan) (cl : Client)
    (info : FailureInfo) (h : p.execute env cl = .error info)
    (hc : ∀ o ∈ info.ledger.creations, env .create o = true)
    (hu : ∀ o ∈ info.ledger.upgrades, env .apply o = true)
    (hdl : ∀ o ∈ info.ledger.deletions, env .delete o = true) :
    RollbackClassOrder cl info := by
  obtain ⟨hrb, htr, cs, us, ds, _, _, _, _, _, _, hledger, hreg, _⟩ :=
    execute_error_cases env p cl info h
  refine ⟨hrb, ?_, ?_, ?_, ?_⟩
  · rw [htr, executeTrace_all_ok env info.ledger cl hc hu hdl]
  · rw [hreg, hledger]
    simp [List.filter_append, filter_fst_map, List.map_map, Function.comp_def]
  · rw [hreg, hledger]
    simp [List.filter_append, filter_fst_map, List.map_map, Function.comp_def]
  · rw [hreg, hledger]
    simp [List.filter_append, filter_fst_map, List.map_map, Function.comp_def]

/-- Witness for the amended C2: executing `planC2` under `envC2` fails at
the second upgrade; the rollback ran class-by-class against client 0. -/
theorem C2_rollback_class_order_witness :
    ReleasePlan.execute envC2 planC2 0 = .error infoC2 ∧
    RollbackClassOrder 0 infoC2 :=
  ⟨rfl, C2_rollback_class_order envC2 planC2 0 infoC2 rfl (by decide) (by decide)
    (by decide)⟩

/-- Counterexample to C2 as stated: for `planC2` under `envC2` the failed
execution's rollback trace is not the registration-order trace — the delete
inverse was registered first but executed last. -/
theorem C2_counterexample :
    isErrOutcome (ReleasePlan.execute envC2 planC2 0) = true ∧
    traceOfOutcome (ReleasePlan.execute envC2 planC2 0) ≠
      registeredOfOutcome (ReleasePlan.execute envC2 planC2 0) := by
  refine ⟨rfl, ?_⟩
  decide

/-- C4 (amended): after a successful plan, a persistence failure triggers
`plan.undo()`; if the undo execution succeeds, the persistence error is the
error surfaced, but if the undo itself fails, the undo failure (wrapped as
a release error with the state snapshot) replaces the persistence error. -/
theorem C4_persist_failure_handling (env : TxEnv) (cl : Client) (isInstall : Bool)
    (plan : ReleasePlan) (state : ReleaseState) (ec : ReleaseStateError) :
    ((∃ c, (plan.undo).execute env cl = .ok c) →
      deployPersistPhase env cl isInstall plan state (.error ec) =
        .error (.releaseStateError ec)) ∧
    (∀ info, (plan.undo).execute env cl = .error info →
      deployPersistPhase env cl isInstall plan state (.error ec) =
        .error (.releaseError state info.error)) := by
  constructor
  · rintro ⟨c, hc⟩
    simp [deployPersistPhase, hc]
  · intro info hinfo
    simp [deployPersistPhase, hinfo]

/-- Witness for the amended C4: with a transport on which the undo
succeeds, the persistence error is surfaced as the primary error. -/
theorem C4_persist_failure_handling_witness :
    (∃ c, (planC4.undo).execute envAllOk 0 = .ok c) ∧
    deployPersistPhase envAllOk 0 true planC4 stateC4 (.error ecC4) =
      .error (.releaseStateError ecC4) :=
  ⟨⟨1, rfl⟩,
    (C4_persist_failure_handling envAllOk 0 true planC4 stateC4 ecC4).1 ⟨1, rfl⟩⟩

/-- Counterexample to C4 as stated: when the undo itself fails, the
surfaced error is the undo failure, not the persistence error — the
persistence error is dropped rather than remaining primary. -/
theorem C4_counterexample :
    deployPersistPhase envC4 0 true planC4 stateC4 (.error ecC4) =
      .error (.releaseError stateC4 (.releaseError ⟨Action.create, mkObj "d"⟩)) ∧
    deployPersistPhase envC4 0 true planC4 stateC4 (.error ecC4) ≠
      .error (.releaseStateError ecC4) := by
  refine ⟨rfl, ?_⟩
  decide

/-- C8 (amended): on a 409 `AlreadyExists` conflict the lock loop waits on
the watch — consulting only the `type=lock`-filtered, 10s-timeout params —
and retries creation both when a deletion event for the name arrives and
when the stream closes without one; any non-conflict creation error fails
immediately; but a broken subscription stream (a watch or stream error) is
not retried: it fails the acquisition with that error. -/
theorem C8_lock_acquire :
    (∀ (name : String) (r : LockRound) (rest : List LockRound) (n : Nat)
        (e : KubeError), r.createResult = .error e →
      isAlreadyExistsConflict e = false →
      lockAcquireLoop name (r :: rest) n = .failed e (n + 1)) ∧
    (∀ (name : String) (r : LockRound) (rest : List LockRound) (n : Nat)
        (e : KubeError), r.createResult = .error e →
      isAlreadyExistsConflict e = true →
      wait_for_deletion name r.watch = .ok () →
      lockAcquireLoop name (r :: rest) n = lockAcquireLoop name rest (n + 1)) ∧
    (∀ (name : String) (r : LockRound) (rest : List LockRound) (n : Nat)
        (e we : KubeError), r.createResult = .error e →
      isAlreadyExistsConflict e = true →
      wait_for_deletion name r.watch = .error we →
      lockAcquireLoop name (r :: rest) n = .failed we (n + 1)) ∧
    (∀ (name : String) (w₁ w₂ : WatchFn), w₁ lockWatchParams = w₂ lockWatchParams →
      wait_for_deletion name w₁ = wait_for_deletion name w₂) ∧
    (∀ (name : String) (pre post : List (Except KubeError WatchEvent)),
      (∀ x ∈ pre, ∀ err, x ≠ Except.error err) →
      processStream name (pre ++ Except.ok (WatchEvent.deleted name) :: post) = .ok ()) ∧
    (∀ (name : String) (items : List (Except KubeError WatchEvent)),
      (∀ x ∈ items, ∀ err, x ≠ Except.error err) →
      processStream name items = .ok ()) := by
  refine ⟨?_, ?_, ?_, ?_, ?_, ?_⟩
  · intro name r rest n e hcr hnc
    simp [lockAcquireLoop, hcr, hnc]
  · intro name r rest n e hcr hcf hw
    simp [lockAcquireLoop, hcr, hcf, hw]
  · intro name r rest n e we hcr hcf hw
    simp [lockAcquireLoop, hcr, hcf, hw]
  · intro name w₁ w₂ hw
    unfold wait_for_deletion
    rw [hw]
  · intro name pre post hpre
    induction pre with
    | nil => simp [processStream]
    | cons x rest ih =>
      cases x with
      | error e => exact absurd rfl (hpre (.error e) (by simp) e)
      | ok ev =>
        have ih' := ih (fun y hy => hpre y (by simp [hy]))
        cases ev with
        | deleted n =>
          by_cases hn : n = name <;> simp [processStream, hn, ih']
        | otherEvent => simpa [processStream] using ih'
  · intro name items hitems
    induction items with
    | nil => rfl
    | cons x rest ih =>
      cases x with
      | error e => exact absurd rfl (hitems (.error e) (by simp) e)
      | ok ev =>
        have ih' := ih (fun y hy => hitems y (by simp [hy]))
        cases ev with
        | deleted n =>
          by_cases hn : n = name <;> simp [processStream, hn, ih']
        | otherEvent => simpa [processStream] using ih'

/-- Witness for the amended C8: a conflict followed by a deletion event
retries creation, and a conflict whose stream breaks fails acquisition. -/
theorem C8_lock_acquire_witness :
    isAlreadyExistsConflict conflict409 = true ∧
    wait_for_deletion "r" deletionWatch = .ok () ∧
    lockAcquireLoop "r" [⟨.error conflict409, deletionWatch⟩, ⟨.ok (), brokenWatch⟩] 0 =
      lockAcquireLoop "r" [⟨.ok (), brokenWatch⟩] 1 ∧
    wait_for_deletion "r" brokenWatch = .error (.other "stream broke") ∧
    lockAcquireLoop "r" roundsC8 0 = .failed (.other "stream broke") 1 :=
  ⟨rfl, rfl,
    C8_lock_acquire.2.1 "r" ⟨.error conflict409, deletionWatch⟩
      [⟨.ok (), brokenWatch⟩] 0 conflict409 rfl rfl rfl,
    rfl,
    C8_lock_acquire.2.2.1 "r" ⟨.error conflict409, brokenWatch⟩
      [⟨.ok (), fun _ => .ok []⟩] 0 conflict409 (.other "stream broke") rfl rfl rfl⟩

/-- Counterexample to C8 as stated: with a conflict whose subscription
stream breaks, acquisition fails after a single create attempt instead of
retrying — the following round, whose creation would have succeeded, is
never reached. -/
theorem C8_counterexample :
    lockAcquireLoop "r" roundsC8 0 = .failed (.other "stream broke") 1 ∧
    lockAcquireLoop "r" roundsC8 0 ≠ .acquired 2 := by
  refine ⟨rfl, ?_⟩
  decide

/-- C9: evaluating `find_release_objects` at two live objects that share
the name `a` but differ in group/version/kind shows the collection is keyed
by `metadata.name`, so the second listing overwrites the first — a single
entry remains instead of two Identifier-distinct ones. -/
theorem C9_name_keyed_eval :
    find_release_objects [[dobjC9a], [dobjC9b]] = [("a", dobjC9b)] ∧
    (find_release_objects [[dobjC9a], [dobjC9b]]).length = 1 :=
  ⟨rfl, rfl⟩

/-! Lemmas about the builder map insert. -/

theorem objectsInsert_snd (m : Objects) (k : Identifier) (v : Object) :
    (objectsInsert m k v).2 = Objects.get m k := by
  induction m with
  | nil => simp [objectsInsert, Objects.get]
  | cons hd tl ih =>
    by_cases hh : hd.1 = k
    · rw [Objects.get_cons_self hd tl k hh]
      simp [objectsInsert, hh]
    · rw [Objects.get_cons_ne hd tl k hh]
      simp [objectsInsert, hh, ih]

theorem objectsInsert_get_self (m : Objects) (k : Identifier) (v : Object) :
    Objects.get (objectsInsert m k v).1 k = some v := by
  induction m with
  | nil =>
    simp [objectsInsert]
    exact Objects.get_cons_self (k, v) [] k rfl
  | cons hd tl ih =>
    by_cases hh : hd.1 = k
    · simp only [objectsInsert, hh, if_true]
      exact Objects.get_cons_self (k, v) tl k rfl
    · simp only [objectsInsert, hh, if_false]
      rw [Objects.get_cons_ne hd _ k hh]
      exact ih

theorem objectsInsert_keys (m : Objects) (k : Identifier) (v : Object) :
    (objectsInsert m k v).1.map Prod.fst =
      if m.containsKey k then m.map Prod.fst else m.map Prod.fst ++ [k] := by
  induction m with
  | nil => simp [objectsInsert, Objects.containsKey]
  | cons hd tl ih =>
    by_cases hh : hd.1 = k
    · have hc : Objects.containsKey (hd :: tl) k = true :=
        (Objects.containsKey_iff _ _).2 ⟨hd, by simp, hh⟩
      simp [objectsInsert, hh, hc]
    · have hc : Objects.containsKey (hd :: tl) k = Objects.containsKey tl k := by
        simp [Objects.containsKey, List.any_cons, hh]
      simp only [objectsInsert, hh, if_false, List.map_cons, hc, ih]
      by_cases htl : Objects.containsKey tl k = true <;> simp [htl]

theorem contains_false_not_mem (m : Objects) (k : Identifier)
    (h : m.containsKey k = false) : ∀ kv ∈ m, kv.1 ≠ k := by
  intro kv hkv heq
  have := (Objects.containsKey_iff m k).2 ⟨kv, hkv, heq⟩
  rw [h] at this
  cases this

/-- C10: when `Builder::add_dynamic_object` reports `DuplicateObject`, the
builder's map already holds the newly added object at that identifier (the
previous binding was replaced, not rolled back), the error occurs exactly
when the identifier was already bound, and key uniqueness is preserved. -/
theorem C10_builder_duplicate (b : Builder) (d : DynamicObject) (nm : String)
    (t : TypeMeta) (ht : d.types = some t) (hn : d.metadata.name = some nm) :
    ((b.add_dynamic_object d).2 =
        .error (.duplicateObject (Identifier.from_api_resource nm t.to_api_resource)) ↔
      b.objects.containsKey (Identifier.from_api_resource nm t.to_api_resource) = true) ∧
    Objects.get (b.add_dynamic_object d).1.objects
        (Identifier.from_api_resource nm t.to_api_resource) =
      some ⟨t.to_api_resource, d⟩ ∧
    ((b.objects.map Prod.fst).Nodup →
      ((b.add_dynamic_object d).1.objects.map Prod.fst).Nodup) := by
  have htf : Object.try_from d = .ok ⟨t.to_api_resource, d⟩ := by
    simp [Object.try_from, DynamicObject.try_to_api_resource, ht]
  have hadd : b.add_dynamic_object d =
      (⟨(objectsInsert b.objects (Identifier.from_api_resource nm t.to_api_resource)
          ⟨t.to_api_resource, d⟩).1⟩,
       match (objectsInsert b.objects (Identifier.from_api_resource nm t.to_api_resource)
          ⟨t.to_api_resource, d⟩).2 with
       | some _ => .error (.duplicateObject
          (Identifier.from_api_resource nm t.to_api_resource))
       | none => .ok ()) := by
    simp only [Builder.add_dynamic_object, htf, Object.name, hn]
    cases (objectsInsert b.objects (Identifier.from_api_resource nm t.to_api_resource)
      ⟨t.to_api_resource, d⟩).2 <;> rfl
  refine ⟨?_, ?_, ?_⟩
  · rw [hadd]
    cases hg : Objects.get b.objects (Identifier.from_api_resource nm t.to_api_resource) with
    | none =>
      rw [objectsInsert_snd, hg]
      constructor
      · intro hcontra
        simp at hcontra
      · intro hcontains
        obtain ⟨o, ho⟩ := Objects.get_isSome_of_contains _ _ hcontains
        rw [hg] at ho
        cases ho
    | some o =>
      rw [objectsInsert_snd, hg]
      obtain ⟨kv, hkv, hk1, _⟩ := Objects.get_eq_some _ _ _ hg
      exact iff_of_true rfl ((Objects.containsKey_iff _ _).2 ⟨kv, hkv, hk1⟩)
  · rw [hadd]
    exact objectsInsert_get_self _ _ _
  · intro hnodup
    rw [hadd]
    simp only []
    rw [objectsInsert_keys]
    cases hc : Objects.containsKey b.objects
        (Identifier.from_api_resource nm t.to_api_resource) with
    | true => simpa using hnodup
    | false =>
      simp only [Bool.false_eq_true, if_false]
      rw [List.nodup_append]
      refine ⟨hnodup, List.nodup_singleton _, ?_⟩
      intro a ha hb
      simp at hb
      subst hb
      obtain ⟨kv, hkv, hk1⟩ := List.mem_map.mp ha
      exact contains_false_not_mem b.objects _ hc kv hkv hk1

/-- Witness for C10: a builder that already binds the identifier of the
added object reports the duplicate while keeping the new object. -/
theorem C10_builder_duplicate_witness :
    dobjC10.types = some ⟨"v1", "ConfigMap"⟩ ∧
    dobjC10.metadata.name = some "a" ∧
    (((builderC10.add_dynamic_object dobjC10).2 =
        .error (.duplicateObject (Identifier.from_api_resource "a"
          (TypeMeta.to_api_resource ⟨"v1", "ConfigMap"⟩))) ↔
      builderC10.objects.containsKey (Identifier.from_api_resource "a"
        (TypeMeta.to_api_resource ⟨"v1", "ConfigMap"⟩)) = true) ∧
    Objects.get (builderC10.add_dynamic_object dobjC10).1.objects
        (Identifier.from_api_resource "a" (TypeMeta.to_api_resource ⟨"v1", "ConfigMap"⟩)) =
      some ⟨TypeMeta.to_api_resource ⟨"v1", "ConfigMap"⟩, dobjC10⟩ ∧
    ((builderC10.objects.map Prod.fst).Nodup →
      ((builderC10.add_dynamic_object dobjC10).1.objects.map Prod.fst).Nodup)) :=
  ⟨rfl, rfl, C10_builder_duplicate builderC10 dobjC10 "a" ⟨"v1", "ConfigMap"⟩ rfl rfl⟩

/-! Membership characterizations of the three action classes of a plan. -/

theorem mem_new_creations (name : String) (desired previous : Objects) (c : Create) :
    c ∈ (ReleasePlan.new name desired previous).creations ↔
      ∃ kv ∈ desired, previous.containsKey kv.1 = false ∧
        c = ⟨tag_object name kv.2⟩ := by
  simp only [ReleasePlan.new, List.mem_map, List.mem_filter, Bool.not_eq_true']
  constructor
  · rintro ⟨kv, ⟨hkv, hnc⟩, rfl⟩
    exact ⟨kv, hkv, hnc, rfl⟩
  · rintro ⟨kv, hkv, hnc, rfl⟩
    exact ⟨kv, ⟨hkv, hnc⟩, rfl⟩

theorem mem_new_upgrades (name : String) (desired previous : Objects) (u : Upgrade) :
    u ∈ (ReleasePlan.new name desired previous).upgrades ↔
      ∃ kv ∈ desired, ∃ old, previous.get kv.1 = some old ∧
        u = ⟨tag_object name kv.2, tag_object name old⟩ := by
  simp only [ReleasePlan.new, List.mem_filterMap]
  constructor
  · rintro ⟨kv, hkv, hmap⟩
    cases hget : Objects.get previous kv.1 with
    | none => rw [hget] at hmap; simp at hmap
    | some old =>
      rw [hget] at hmap
      simp only [Option.map_some'] at hmap
      cases hmap
      exact ⟨kv, hkv, old, hget, rfl⟩
  · rintro ⟨kv, hkv, old, hget, rfl⟩
    exact ⟨kv, hkv, by rw [hget]; rfl⟩

theorem mem_new_deletions (name : String) (desired previous : Objects) (d : Delete) :
    d ∈ (ReleasePlan.new name desired previous).deletions ↔
      ∃ kv ∈ previous, desired.containsKey kv.1 = false ∧
        d = ⟨tag_object name kv.2⟩ := by
  simp only [ReleasePlan.new, List.mem_map, List.mem_filter, Bool.not_eq_true']
  constructor
  · rintro ⟨kv, ⟨hkv, hnc⟩, rfl⟩
    exact ⟨kv, hkv, hnc, rfl⟩
  · rintro ⟨kv, hkv, hnc, rfl⟩
    exact ⟨kv, ⟨hkv, hnc⟩, rfl⟩

theorem creations_ident_iff (name : String) (desired previous : Objects)
    (hcohd : ∀ kv ∈ desired, Object.ident kv.2 = some kv.1) (id : Identifier) :
    (∃ c ∈ (ReleasePlan.new name desired previous).creations, c.new.ident = some id) ↔
      (desired.containsKey id = true ∧ previous.containsKey id = false) := by
  constructor
  · rintro ⟨c, hc, hident⟩
    obtain ⟨kv, hkv, hnc, rfl⟩ := (mem_new_creations name desired previous c).1 hc
    rw [show (⟨tag_object name kv.2⟩ : Create).new = tag_object name kv.2 from rfl,
      tag_object_ident, hcohd kv hkv] at hident
    cases hident
    exact ⟨(Objects.containsKey_iff _ _).2 ⟨kv, hkv, rfl⟩, hnc⟩
  · rintro ⟨hd, hp⟩
    obtain ⟨kv, hkv, hk1⟩ := (Objects.containsKey_iff _ _).1 hd
    refine ⟨⟨tag_object name kv.2⟩,
      (mem_new_creations name desired previous _).2 ⟨kv, hkv, by rw [hk1]; exact hp, rfl⟩, ?_⟩
    show (tag_object name kv.2).ident = some id
    rw [tag_object_ident, hcohd kv hkv, hk1]

theorem upgrades_new_ident_iff (name : String) (desired previous : Objects)
    (hcohd : ∀ kv ∈ desired, Object.ident kv.2 = some kv.1) (id : Identifier) :
    (∃ u ∈ (ReleasePlan.new name desired previous).upgrades, u.new.ident = some id) ↔
      (desired.containsKey id = true ∧ previous.containsKey id = true) := by
  constructor
  · rintro ⟨u, hu, hident⟩
    obtain ⟨kv, hkv, old, hget, rfl⟩ := (mem_new_upgrades name desired previous u).1 hu
    rw [show (⟨tag_object name kv.2, tag_object name old⟩ : Upgrade).new =
        tag_object name kv.2 from rfl, tag_object_ident, hcohd kv hkv] at hident
    cases hident
    obtain ⟨kvp, hkvp, hk1, _⟩ := Objects.get_eq_some previous kv.1 old hget
    exact ⟨(Objects.containsKey_iff _ _).2 ⟨kv, hkv, rfl⟩,
      (Objects.containsKey_iff _ _).2 ⟨kvp, hkvp, hk1⟩⟩
  · rintro ⟨hd, hp⟩
    obtain ⟨kv, hkv, hk1⟩ := (Objects.containsKey_iff _ _).1 hd
    obtain ⟨old, hget⟩ := Objects.get_isSome_of_contains previous id hp
    refine ⟨⟨tag_object name kv.2, tag_object name old⟩,
      (mem_new_upgrades name desired previous _).2 ⟨kv, hkv, old, by rw [hk1]; exact hget, rfl⟩, ?_⟩
    show (tag_object name kv.2).ident = some id
    rw [tag_object_ident, hcohd kv hkv, hk1]

theorem upgrades_old_ident_iff (name : String) (desired previous : Objects)
    (hcohp : ∀ kv ∈ previous, Object.ident kv.2 = some kv.1) (id : Identifier) :
    (∃ u ∈ (ReleasePlan.new name desired previous).upgrades, u.old.ident = some id) ↔
      (desired.containsKey id = true ∧ previous.containsKey id = true) := by
  constructor
  · rintro ⟨u, hu, hident⟩
    obtain ⟨kv, hkv, old, hget, rfl⟩ := (mem_new_upgrades name desired previous u).1 hu
    obtain ⟨kvp, hkvp, hk1, hv⟩ := Objects.get_eq_some previous kv.1 old hget
    rw [show (⟨tag_object name kv.2, tag_object name old⟩ : Upgrade).old =
        tag_object name old from rfl, tag_object_ident, ← hv, hcohp kvp hkvp] at hident
    cases hident
    exact ⟨(Objects.containsKey_iff _ _).2 ⟨kv, hkv, hk1.symm⟩,
      (Objects.containsKey_iff _ _).2 ⟨kvp, hkvp, rfl⟩⟩
  · rintro ⟨hd, hp⟩
    obtain ⟨kv, hkv, hk1⟩ := (Objects.containsKey_iff _ _).1 hd
    obtain ⟨old, hget⟩ := Objects.get_isSome_of_contains previous id hp
    obtain ⟨kvp, hkvp, hpk1, hpv⟩ := Objects.get_eq_some previous id old hget
    refine ⟨⟨tag_object name kv.2, tag_object name old⟩,
      (mem_new_upgrades name desired previous _).2 ⟨kv, hkv, old, by rw [hk1]; exact hget, rfl⟩, ?_⟩
    show (tag_object name old).ident = some id
    rw [tag_object_ident, ← hpv, hcohp kvp hkvp, hpk1]

theorem deletions_ident_iff (name : String) (desired previous : Objects)
    (hcohp : ∀ kv ∈ previous, Object.ident kv.2 = some kv.1) (id : Identifier) :
    (∃ d ∈ (ReleasePlan.new name desired previous).deletions, d.old.ident = some id) ↔
      (previous.containsKey id = true ∧ desired.containsKey id = false) := by
  constructor
  · rintro ⟨d, hd, hident⟩
    obtain ⟨kv, hkv, hnc, rfl⟩ := (mem_new_deletions name desired previous d).1 hd
    rw [show (⟨tag_object name kv.2⟩ : Delete).old = tag_object name kv.2 from rfl,
      tag_object_ident, hcohp kv hkv] at hident
    cases hident
    exact ⟨(Objects.containsKey_iff _ _).2 ⟨kv, hkv, rfl⟩, hnc⟩
  · rintro ⟨hp, hd⟩
    obtain ⟨kv, hkv, hk1⟩ := (Objects.containsKey_iff _ _).1 hp
    refine ⟨⟨tag_object name kv.2⟩,
      (mem_new_deletions name desired previous _).2 ⟨kv, hkv, by rw [hk1]; exact hd, rfl⟩, ?_⟩
    show (tag_object name kv.2).ident = some id
    rw [tag_object_ident, hcohp kv hkv, hk1]

/-- C1: the plan built by `ReleasePlan::new` categorizes purely by
identifier membership — creations are the desired-only identifiers,
upgrades the shared ones (carrying the tagged desired and previous images),
deletions the previous-only ones — hence creations with upgrade-new cover
desired, deletions with upgrade-old cover previous, and the three classes
partition the union of the two identifier sets. -/
theorem C1_plan_partition (name : String) (desired previous : Objects)
    (hd : (desired.map Prod.fst).Nodup) (hp : (previous.map Prod.fst).Nodup)
    (hcohd : ∀ kv ∈ desired, Object.ident kv.2 = some kv.1)
    (hcohp : ∀ kv ∈ previous, Object.ident kv.2 = some kv.1) :
    PlanPartition name desired previous := by
  have hC := creations_ident_iff name desired previous hcohd
  have hU := upgrades_new_ident_iff name desired previous hcohd
  have hUo := upgrades_old_ident_iff name desired previous hcohp
  have hD := deletions_ident_iff name desired previous hcohp
  refine ⟨fun id => (hC id).symm, fun id => (hU id).symm, fun id => (hD id).symm,
    ?_, ?_, ?_, ?_, ?_, ?_, ?_⟩
  · intro c hc id hident
    obtain ⟨kv, hkv, _, rfl⟩ := (mem_new_creations name desired previous c).1 hc
    rw [show (⟨tag_object name kv.2⟩ : Create).new = tag_object name kv.2 from rfl,
      tag_object_ident, hcohd kv hkv] at hident
    cases hident
    exact ⟨kv.2, Objects.get_of_mem_nodup desired kv.1 kv.2 hkv hd, rfl⟩
  · intro u hu id hident
    obtain ⟨kv, hkv, old, hget, rfl⟩ := (mem_new_upgrades name desired previous u).1 hu
    rw [show (⟨tag_object name kv.2, tag_object name old⟩ : Upgrade).new =
        tag_object name kv.2 from rfl, tag_object_ident, hcohd kv hkv] at hident
    cases hident
    exact ⟨kv.2, old, Objects.get_of_mem_nodup desired kv.1 kv.2 hkv hd, hget, rfl, rfl⟩
  · intro d hdm id hident
    obtain ⟨kv, hkv, _, rfl⟩ := (mem_new_deletions name desired previous d).1 hdm
    rw [show (⟨tag_object name kv.2⟩ : Delete).old = tag_object name kv.2 from rfl,
      tag_object_ident, hcohp kv hkv] at hident
    cases hident
    exact ⟨kv.2, Objects.get_of_mem_nodup previous kv.1 kv.2 hkv hp, rfl⟩
  · intro id
    rw [hC id, hU id]
    cases hdp : desired.containsKey id <;> cases hpp : previous.containsKey id <;>
      simp [hdp, hpp]
  · intro id
    rw [hD id, hUo id]
    cases hdp : desired.containsKey id <;> cases hpp : previous.containsKey id <;>
      simp [hdp, hpp]
  · intro id
    rw [hC id, hU id, hD id]
    cases hdp : desired.containsKey id <;> cases hpp : previous.containsKey id <;>
      simp [hdp, hpp]
  · intro id
    rw [hC id, hU id, hD id]
    cases hdp : desired.containsKey id <;> cases hpp : previous.containsKey id <;>
      simp [hdp, hpp]

/-- Witness for C1: a concrete desired/previous pair with a shared
identifier, a desired-only one and a previous-only one. -/
theorem C1_plan_partition_witness :
    (desiredC1.map Prod.fst).Nodup ∧ (previousC1.map Prod.fst).Nodup ∧
    (∀ kv ∈ desiredC1, Object.ident kv.2 = some kv.1) ∧
    (∀ kv ∈ previousC1, Object.ident kv.2 = some kv.1) ∧
    PlanPartition "r" desiredC1 previousC1 :=
  ⟨by decide, by decide, by decide, by decide,
    C1_plan_partition "r" desiredC1 previousC1 (by decide) (by decide) (by decide)
      (by decide)⟩

/-! Lemmas about the verifier's structural subset check. -/

theorem JsonObj.mem_keys_of_mem_toList (fs : JsonObj) (k : String) (v : Json)
    (hm : (k, v) ∈ fs.toList) : k ∈ fs.keys := by
  match fs with
  | .nil => simp [JsonObj.toList] at hm
  | .cons k' v' tl =>
    simp only [JsonObj.toList, List.mem_cons] at hm
    simp only [JsonObj.keys, List.mem_cons]
    rcases hm with heq | hm'
    · cases heq
      exact Or.inl rfl
    · exact Or.inr (JsonObj.mem_keys_of_mem_toList tl k v hm')

theorem JsonObj.getFirstOfNodupKeys (fs : JsonObj) (k : String) (v : Json)
    (hm : (k, v) ∈ fs.toList) (hn : fs.keys.Nodup) : fs.get k = some v := by
  match fs with
  | .nil => simp [JsonObj.toList] at hm
  | .cons k' v' tl =>
    simp only [JsonObj.keys, List.nodup_cons] at hn
    simp only [JsonObj.toList, List.mem_cons] at hm
    rcases hm with heq | hm'
    · cases heq
      simp [JsonObj.get]
    · have hne : k' ≠ k := by
        intro hcontra
        subst hcontra
        exact hn.1 (JsonObj.mem_keys_of_mem_toList tl k' v hm')
      simp only [JsonObj.get, hne, if_false]
      exact JsonObj.getFirstOfNodupKeys tl k v hm' hn.2

set_option linter.unusedTactic false

mutual

theorem check_value_eq_divergence (s i : Json) (p : List String) :
    check_value s i p =
      (match firstDivergence s i with
       | none => Except.ok ()
       | some d => Except.error (p ++ d)) := by
  cases s <;> cases i <;>
    first
    | (simp [check_value, firstDivergence]
       done)
    | (rename_i a b
       by_cases hab : a = b <;> simp [check_value, firstDivergence, hab]
       done)
    | (rename_i a b
       by_cases hl : JsonArr.length a = JsonArr.length b <;>
         simp [check_value, firstDivergence, hl, checkArrayItems_eq_divergence a b p 0]
       )
    | (rename_i a b
       simp [check_value, firstDivergence, checkObjectFields_eq_divergence a b p]
       done)

theorem checkArrayItems_eq_divergence (s x : JsonArr) (p : List String) (n : Nat) :
    checkArrayItems s x p n =
      (match firstDivergenceArr s x n with
       | none => Except.ok ()
       | some d => Except.error (p ++ d)) := by
  match s, x with
  | .nil, x => simp [checkArrayItems, firstDivergenceArr]
  | .cons hd tl, .nil => simp [checkArrayItems, firstDivergenceArr]
  | .cons hd tl, .cons xh xt =>
    have hcv := check_value_eq_divergence hd xh (p ++ [toString n])
    cases hfd : firstDivergence hd xh with
    | none =>
      simp only [hfd] at hcv
      simp [checkArrayItems, hcv, firstDivergenceArr, hfd,
        checkArrayItems_eq_divergence tl xt p (n + 1)]
    | some d =>
      simp only [hfd] at hcv
      simp [checkArrayItems, hcv, firstDivergenceArr, hfd]

theorem checkObjectFields_eq_divergence (fs inst : JsonObj) (p : List String) :
    checkObjectFields fs inst p =
      (match firstDivergenceObj fs inst with
       | none => Except.ok ()
       | some d => Except.error (p ++ d)) := by
  match fs with
  | .nil => simp [checkObjectFields, firstDivergenceObj]
  | .cons k v rest =>
    cases hget : inst.get k with
    | none => simp [checkObjectFields, firstDivergenceObj, hget]
    | some iv =>
      have hcv := check_value_eq_divergence v iv (p ++ [k])
      cases hfd : firstDivergence v iv with
      | none =>
        simp only [hfd] at hcv
        have hobj : firstDivergenceObj (JsonObj.cons k v rest) inst =
            firstDivergenceObj rest inst := by
          simp only [firstDivergenceObj, hget, hfd]
        rw [hobj, ← checkObjectFields_eq_divergence rest inst p]
        simp [checkObjectFields, hget, hcv]
      | some d =>
        simp only [hfd] at hcv
        have hobj : firstDivergenceObj (JsonObj.cons k v rest) inst =
            some (k :: d) := by
          simp only [firstDivergenceObj, hget, hfd]
        rw [hobj]
        simp [checkObjectFields, hget, hcv]

end

mutual

theorem check_value_refl (j : Json) (p : List String) (h : j.wf = true) :
    check_value j j p = .ok () := by
  match j with
  | .null => simp [check_value]
  | .bool a => simp [check_value]
  | .num a => simp [check_value]
  | .str a => simp [check_value]
  | .arr items =>
    have hw : items.wfArr = true := by simpa [Json.wf] using h
    simp only [check_value, if_pos rfl]
    exact checkArrayItems_refl items p 0 hw
  | .obj fields =>
    have h2 := h
    simp only [Json.wf, Bool.and_eq_true, decide_eq_true_eq] at h2
    exact checkObjectFields_refl fields fields p h2.2
      (fun k v hm => JsonObj.getFirstOfNodupKeys fields k v hm h2.1)

theorem checkArrayItems_refl (l : JsonArr) (p : List String) (n : Nat)
    (h : l.wfArr = true) : checkArrayItems l l p n = .ok () := by
  match l with
  | .nil => simp [checkArrayItems]
  | .cons hd tl =>
    have h2 := h
    simp only [JsonArr.wfArr, Bool.and_eq_true] at h2
    simp only [checkArrayItems]
    rw [check_value_refl hd (p ++ [toString n]) h2.1]
    exact checkArrayItems_refl tl p (n + 1) h2.2

theorem checkObjectFields_refl (fs inst : JsonObj) (p : List String)
    (hvals : fs.wfObj = true)
    (hget : ∀ k v, (k, v) ∈ fs.toList → inst.get k = some v) :
    checkObjectFields fs inst p = .ok () := by
  match fs with
  | .nil => simp [checkObjectFields]
  | .cons k v rest =>
    have h2 := hvals
    simp only [JsonObj.wfObj, Bool.and_eq_true] at h2
    have hg : inst.get k = some v := hget k v (by simp [JsonObj.toList])
    simp only [checkObjectFields, hg]
    rw [check_value_refl v (p ++ [k]) h2.1]
    exact checkObjectFields_refl rest inst p h2.2
      (fun k2 v2 hm => hget k2 v2 (by simp [JsonObj.toList, hm]))

end

mutual

theorem check_value_iff_claim (s i : Json) (p : List String) :
    check_value s i p = .ok () ↔ specMatchesClaim s i = true := by
  cases s <;> cases i <;>
    first
    | (simp [check_value, specMatchesClaim]
       done)
    | (rename_i a b
       by_cases hab : a = b <;> simp [check_value, specMatchesClaim, hab]
       done)
    | (rename_i a b
       by_cases hl : JsonArr.length a = JsonArr.length b
       · simp [check_value, specMatchesClaim, hl, checkArrayItems_iff a b p 0]
       · simp [check_value, specMatchesClaim, hl]
       )
    | (rename_i a b
       simp [check_value, specMatchesClaim, checkObjectFields_iff a b p]
       done)

theorem checkArrayItems_iff (s x : JsonArr) (p : List String) (n : Nat) :
    checkArrayItems s x p n = .ok () ↔ specMatchesArr s x = true := by
  match s, x with
  | .nil, x => simp [checkArrayItems, specMatchesArr]
  | .cons hd tl, .nil => simp [checkArrayItems, specMatchesArr]
  | .cons hd tl, .cons xh xt =>
    have hiff := check_value_iff_claim hd xh (p ++ [toString n])
    cases hcv : check_value hd xh (p ++ [toString n]) with
    | ok u =>
      cases u
      have hT : specMatchesClaim hd xh = true := hiff.1 hcv
      simp [checkArrayItems, hcv, specMatchesArr, hT, checkArrayItems_iff tl xt p (n + 1)]
    | error e =>
      have hF : specMatchesClaim hd xh = false := by
        cases hsm : specMatchesClaim hd xh with
        | false => rfl
        | true =>
          have hok := hiff.2 hsm
          rw [hcv] at hok
          cases hok
      simp [checkArrayItems, hcv, specMatchesArr, hF]

theorem checkObjectFields_iff (fs inst : JsonObj) (p : List String) :
    checkObjectFields fs inst p = .ok () ↔ specMatchesObj fs inst = true := by
  match fs with
  | .nil => simp [checkObjectFields, specMatchesObj]
  | .cons k v rest =>
    cases hget : inst.get k with
    | none => simp [checkObjectFields, specMatchesObj, hget]
    | some iv =>
      have hiff := check_value_iff_claim v iv (p ++ [k])
      cases hcv : check_value v iv (p ++ [k]) with
      | ok u =>
        cases u
        have hT : specMatchesClaim v iv = true := hiff.1 hcv
        simp [checkObjectFields, specMatchesObj, hget, hcv, hT,
          checkObjectFields_iff rest inst p]
      | error e =>
        have hF : specMatchesClaim v iv = false := by
          cases hsm : specMatchesClaim v iv with
          | false => rfl
          | true =>
            have hok := hiff.2 hsm
            rw [hcv] at hok
            cases hok
        simp [checkObjectFields, specMatchesObj, hget, hcv, hF]

end


/-- C5: the verifier's structural subset check is reflexive on well-formed
values (`check_value(spec, spec) = Ok`), it succeeds exactly when the
claim's scalar/array/object matching conditions hold (extra object keys in
the instance ignored, extra array elements fatal), and on mismatch the
result is exactly the starting path extended by the relative path of the
first divergence (first failing array index, first missing or diverging
spec field in field order), so the reported path extends the starting
path. -/
theorem C5_check_value_subset :
    (∀ (s : Json) (p : List String), s.wf = true → check_value s s p = .ok ()) ∧
    (∀ (s i : Json) (p : List String),
      check_value s i p = .ok () ↔ specMatchesClaim s i = true) ∧
    (∀ (s i : Json) (p : List String),
      check_value s i p =
        (match firstDivergence s i with
         | none => Except.ok ()
         | some d => Except.error (p ++ d))) ∧
    (∀ (s i : Json) (p e : List String), check_value s i p = .error e →
      ∃ d, firstDivergence s i = some d ∧ e = p ++ d ∧ p <+: e) := by
  refine ⟨fun s p h => check_value_refl s p h,
    fun s i p => check_value_iff_claim s i p,
    fun s i p => check_value_eq_divergence s i p, ?_⟩
  intro s i p e h
  have heq := check_value_eq_divergence s i p
  rw [h] at heq
  cases hfd : firstDivergence s i with
  | none =>
    rw [hfd] at heq
    cases heq
  | some d =>
    rw [hfd] at heq
    simp only [Except.error.injEq] at heq
    exact ⟨d, rfl, heq, heq ▸ List.prefix_append p d⟩

/-- Witness for C5: a concrete well-formed object matched against itself,
against an instance with an extra key, and against an instance in which
both fields diverge — the reported path names the first field `a`, at the
starting path extended by `a`. -/
theorem C5_check_value_subset_witness :
    jsonC5.wf = true ∧
    check_value jsonC5 jsonC5 [] = .ok () ∧
    (check_value jsonC5 (Json.obj (.cons "a" (.num 1) (.cons "b" (.str "x")
        (.cons "c" (.bool true) .nil)))) [] = .ok () ↔
      specMatchesClaim jsonC5 (Json.obj (.cons "a" (.num 1) (.cons "b" (.str "x")
        (.cons "c" (.bool true) .nil))) ) = true) ∧
    firstDivergence jsonC5 (Json.obj (.cons "a" (.num 2) (.cons "b" (.str "y")
      .nil))) = some ["a"] ∧
    check_value jsonC5 (Json.obj (.cons "a" (.num 2) (.cons "b" (.str "y")
        .nil))) ["root"] =
      (match firstDivergence jsonC5 (Json.obj (.cons "a" (.num 2)
          (.cons "b" (.str "y") .nil))) with
       | none => Except.ok ()
       | some d => Except.error (["root"] ++ d)) ∧
    check_value jsonC5 (Json.obj (.cons "a" (.num 2) (.cons "b" (.str "y")
      .nil))) ["root"] = .error ["root", "a"] :=
  ⟨rfl, C5_check_value_subset.1 jsonC5 [] rfl,
   C5_check_value_subset.2.1 jsonC5 _ [],
   rfl,
   C5_check_value_subset.2.2.1 jsonC5 _ ["root"],
   (C5_check_value_subset.2.2.1 jsonC5 _ ["root"]).trans rfl⟩

end AbleSeaman

